import Mathlib

/-!
Verification of the pipewire filter-chain engine
(src/modules/module-filter-chain.c) against its specification.

The development shallowly embeds the engine's data model and the
operations the specification talks about:

* the per-period executor (capture_process, source lines 587-646),
  modelled as a pure function from the dequeued buffers to the trace of
  externally visible actions (connect_port / memset / run / queue);
* the planner's dimensioning step (setup_graph lines 1688-1720) and its
  topological walk (find_next_node, setup_output_port, setup_graph
  lines 1877-1906), modelled as explicit state-passing functions;
* the graph builder (parse_link, link_free) and the control plane
  (find_port, set_control_value, parse_params), modelled over a graph
  state with the same per-node port arrays and counters as the source.

Machine floats that the source merely stores, compares and copies
(control values) are modelled as exact rationals; the opaque plugin
handles and data pointers are identified by their indices.  JSON
scanning is cut at the boundary: the model functions receive the
strings / value lists that the source extracts from the description.
-/

namespace FilterChain

/-- Error kinds returned by the builder/planner (negative errno values
in the source: EINVAL, ENOENT, ENOTSUP, EBUSY). -/
inductive FcError where
  | INVAL
  | NOENT
  | NOTSUP
  | BUSY
  deriving DecidableEq

/-! ## Executor model (capture_process, lines 587-646)

The audio-thread executor is modelled as a pure function producing the
list of externally visible actions of one period, in program order.
The opaque descriptor/handle pointers of a graph_port are represented
by whether the descriptor is non-null (port->desc) plus the slot index
that identifies the connect_port target in the trace. -/

/-- Chunk metadata of one spa_data (offset, size in bytes, stride). -/
structure Chunk where
  offset : Nat
  size : Nat
  stride : Int
  deriving DecidableEq

/-- One data plane of a dequeued buffer: maxsize plus its chunk. -/
structure SpaData where
  maxsize : Nat
  chunk : Chunk
  deriving DecidableEq

/-- A dequeued pw_buffer: its list of data planes. -/
structure PwBuffer where
  datas : List SpaData
  deriving DecidableEq

/-- One slot of graph.input / graph.output: whether port->desc is
non-null (a null desc means the slot is a no-op / silence slot). -/
structure GraphPortRef where
  hasDesc : Bool
  deriving DecidableEq

/-- The planning artifacts the executor reads: the external slot
arrays and the number of entries of graph.hndl. -/
structure ExecGraph where
  input : List GraphPortRef
  output : List GraphPortRef
  nHndl : Nat
  deriving DecidableEq

/-- Externally visible actions of one executor period, in program
order: connect_port on an input/output slot, memset-to-zero of an
output region (with the byte count used), run of one graph.hndl entry
(with the frame count), queueing buffers back, triggering the playback
stream. -/
inductive Ev where
  | connectIn (slot : Nat)
  | connectOut (slot : Nat)
  | zeroOut (slot : Nat) (size : Nat)
  | runHndl (idx : Nat) (frames : Nat)
  | queueCapture
  | queuePlayback
  | triggerProcess
  deriving DecidableEq

/-- sizeof(float): the executor divides the byte count by it to obtain
the frame count passed to run. -/
def sizeofFloat : Nat := 4

/-- Body of the first loop of capture_process (lines 604-618): walk the
capture buffer's data planes, clamp offset and size against maxsize,
connect non-null input slots, and accumulate outsize (the running
minimum of the clamped sizes, seeded by the first plane) and the
maximum stride.  The index i is the loop counter. -/
def captureInLoop (g : ExecGraph) : List SpaData → Nat → Nat → Int → List Ev × Nat × Int
  | [], _, outsize, stride => ([], outsize, stride)
  | ds :: rest, i, outsize, stride =>
    let offs := min ds.chunk.offset ds.maxsize
    let size := min ds.chunk.size (ds.maxsize - offs)
    let port := g.input.getD i { hasDesc := false }
    let evs := if port.hasDesc then [Ev.connectIn i] else []
    let outsize1 := if i = 0 then size else min outsize size
    let stride1 := max stride ds.chunk.stride
    let r := captureInLoop g rest (i + 1) outsize1 stride1
    (evs ++ r.1, r.2)

/-- Body of the second loop of capture_process (lines 619-633): walk
the playback buffer's data planes, clip outsize by each plane's
maxsize, connect non-null output slots and memset null ones with the
running outsize, as the source does. -/
def captureOutLoop (g : ExecGraph) : List SpaData → Nat → Nat → List Ev × Nat
  | [], _, outsize => ([], outsize)
  | dd :: rest, i, outsize =>
    let outsize1 := min outsize dd.maxsize
    let port := g.output.getD i { hasDesc := false }
    let evs := if port.hasDesc then [Ev.connectOut i] else [Ev.zeroOut i outsize1]
    let r := captureOutLoop g rest (i + 1) outsize1
    (evs ++ r.1, r.2)

/-- The per-period executor capture_process (lines 587-646).  Dequeue
results are passed in as options (pw_stream_dequeue_buffer may return
NULL).  When either buffer is missing the body is skipped (goto done)
but every dequeued buffer is still queued back; the function has no
error return (void in the source). -/
def capture_process (g : ExecGraph) (inB outB : Option PwBuffer) : List Ev :=
  match inB, outB with
  | some ib, some ob =>
    let ri := captureInLoop g ib.datas 0 0 0
    let ro := captureOutLoop g ob.datas 0 ri.2.1
    let runs := (List.range g.nHndl).map (fun k => Ev.runHndl k (ro.2 / sizeofFloat))
    ri.1 ++ ro.1 ++ runs ++ [Ev.queueCapture, Ev.queuePlayback, Ev.triggerProcess]
  | some _, none => [Ev.queueCapture, Ev.triggerProcess]
  | none, some _ => [Ev.queuePlayback, Ev.triggerProcess]
  | none, none => [Ev.triggerProcess]

/-- Actions that constitute graph work in a period: running a handle or
rebinding/zeroing a port region. -/
def isWork : Ev → Bool
  | Ev.runHndl _ _ => true
  | Ev.connectIn _ => true
  | Ev.connectOut _ => true
  | Ev.zeroOut _ _ => true
  | _ => false

/-- Run actions only. -/
def isRun : Ev → Bool
  | Ev.runHndl _ _ => true
  | _ => false

/-- Spec-side size of one input data slot: min(chunk.size, maxsize -
offset), in bytes (the specification's expression, with the unclamped
offset). -/
def specInSize (ds : SpaData) : Nat := min ds.chunk.size (ds.maxsize - ds.chunk.offset)

/-- Code-side size of one input data slot, with the offset clamped to
maxsize first, exactly as lines 609-610 compute it. -/
def codeInSize (ds : SpaData) : Nat :=
  min ds.chunk.size (ds.maxsize - min ds.chunk.offset ds.maxsize)

/-- Spec-side frame count of a period: the minimum over all input data
slots of min(chunk.size, maxsize - offset), clipped by every output
slot's maxsize, divided by sizeof(float). -/
def specFrames (ins outs : List SpaData) : Nat :=
  let m :=
    match ins.map specInSize with
    | [] => 0
    | x :: xs => xs.foldl min x
  (outs.foldl (fun a dd => min a dd.maxsize) m) / sizeofFloat

/-- Running clip of the output loop: the value of outsize right after
processing output slot k, starting from accumulator acc. -/
def outRunningSize (acc : Nat) (outs : List SpaData) (k : Nat) : Nat :=
  (outs.take (k + 1)).foldl (fun a dd => min a dd.maxsize) acc

/-- Concrete executor fixture: one connected input slot, one null
output slot, two handles. -/
def execFixtureGraph : ExecGraph :=
  { input := [{ hasDesc := true }], output := [{ hasDesc := false }], nHndl := 2 }

/-- Concrete capture buffer: one plane, 64 bytes capacity, chunk of 32
bytes at offset 0. -/
def execFixtureIn : PwBuffer :=
  { datas := [{ maxsize := 64, chunk := { offset := 0, size := 32, stride := 4 } }] }

/-- Concrete playback buffer: one plane of 24 bytes capacity. -/
def execFixtureOut : PwBuffer :=
  { datas := [{ maxsize := 24, chunk := { offset := 0, size := 0, stride := 0 } }] }

/-! ## Planner model (setup_graph, lines 1646-1919)

The dimensioning step of setup_graph (lines 1667-1719) is a pure
computation on the four channel counts; the topological walk (lines
1877-1906 together with find_next_node, lines 1589-1599, and the
n_deps decrements of setup_output_port, line 1641) only reads and
writes each node's n_deps / visited fields and appends to graph.hndl,
so it is modelled at node granularity: nodes are indices 0..n, and
each link contributes the pair (output node, input node). -/

/-- MAX_HNDL (line 439). -/
def MAX_HNDL : Nat := 64

/-- Stream channel defaulting (lines 1688-1691): a channel count of 0
is replaced by the graph's own port count. -/
def effectiveChannels (ch dflt : Nat) : Nat := if ch = 0 then dflt else ch

/-- The dimensioning step of setup_graph (lines 1677-1719): reject
zero inputs/outputs, compute n_hndl = capture channels / n_input,
reject a quotient mismatch with playback channels / n_output, reject
n_hndl > MAX_HNDL, and degrade n_hndl = 0 to 1. -/
def computeNHndl (captureCh playbackCh nInput nOutput : Nat) : Except FcError Nat :=
  if nInput = 0 then Except.error FcError.INVAL
  else if nOutput = 0 then Except.error FcError.INVAL
  else
    let nHndl := effectiveChannels captureCh nInput / nInput
    if nHndl ≠ effectiveChannels playbackCh nOutput / nOutput then Except.error FcError.INVAL
    else if MAX_HNDL < nHndl then Except.error FcError.INVAL
    else if nHndl = 0 then Except.ok 1
    else Except.ok nHndl

/-- State of the planner's topological walk: node count, per-node
n_deps and visited flags, and the node-granularity prefix of
graph.hndl built so far (visit order). -/
structure PlanState where
  nNodes : Nat
  deps : Nat → Nat
  visited : Nat → Bool
  order : List Nat

/-- find_next_node (lines 1589-1599): the first node in list order
with n_deps == 0 that is not yet visited. -/
def findNextNode (s : PlanState) : Option Nat :=
  (List.range s.nNodes).find? (fun i => s.deps i == 0 && !(s.visited i))

/-- The n_deps decrements performed while visiting node u: for every
link whose output endpoint lies on u, decrement the input node's
n_deps (setup_output_port, line 1641, once per link). -/
def decDeps (links : List (Nat × Nat)) (u : Nat) (deps : Nat → Nat) : Nat → Nat :=
  links.foldl
    (fun d l => if l.1 = u then (fun v => if v = l.2 then d v - 1 else d v) else d) deps

/-- One iteration of the walk body (lines 1882-1906): mark u visited
(find_next_node sets node->visited), append u's instances to
graph.hndl (modelled at node granularity) and apply the n_deps
decrements of its output links. -/
def visitNode (links : List (Nat × Nat)) (s : PlanState) (u : Nat) : PlanState :=
  { s with
    visited := fun j => if j = u then true else s.visited j
    order := s.order ++ [u]
    deps := decDeps links u s.deps }

/-- The walk loop (lines 1882-1906), with explicit fuel; every
successful iteration visits a previously unvisited node, so fuel =
node count always suffices. -/
def topoWalk (links : List (Nat × Nat)) : Nat → PlanState → PlanState
  | 0, s => s
  | fuel + 1, s =>
    match findNextNode s with
    | none => s
    | some u => topoWalk links fuel (visitNode links s u)

/-- In-degree of node v: number of links whose input endpoint lies on
v.  This is the n_deps value the builder has established when the
planner starts (parse_link, line 1417). -/
def inDegree (links : List (Nat × Nat)) (v : Nat) : Nat :=
  links.countP (fun l => l.2 == v)

/-- Walk state at the start of the planning pass. -/
def initPlanState (n : Nat) (links : List (Nat × Nat)) : PlanState :=
  { nNodes := n, deps := fun v => inDegree links v, visited := fun _ => false, order := [] }

/-- The node visit order produced by a full planning pass. -/
def planOrder (n : Nat) (links : List (Nat × Nat)) : List Nat :=
  (topoWalk links n (initPlanState n links)).order

/-- graph.hndl: for every visited node, its n_hndl instances are
appended in instance order (lines 1892-1896), so entry (u, i) stands
for node u's handle i. -/
def graphHndlOrder (order : List Nat) (nH : Nat) : List (Nat × Nat) :=
  order.flatMap (fun k => (List.range nH).map (fun i => (k, i)))

/-- setup_graph condensed to the decisions the planner makes on the
graph shape: the dimensioning step may fail; afterwards the walk runs
and its result is returned with 0 (success) - the source never checks
whether the walk visited every node (instantiation and external-port
binding, whose failures depend only on the externally supplied plugins
and port strings, are modelled as succeeding). -/
def setupGraphPlan (captureCh playbackCh nInput nOutput nNodes : Nat)
    (links : List (Nat × Nat)) : Except FcError (List Nat) :=
  match computeNHndl captureCh playbackCh nInput nOutput with
  | Except.error e => Except.error e
  | Except.ok _ => Except.ok (planOrder nNodes links)

/-- Invariant of the topological walk: visited flags match the order
list, each node's n_deps counts its links from unvisited sources, and
every already-ordered link target is preceded by its source. -/
def PlanInv (links : List (Nat × Nat)) (s : PlanState) : Prop :=
  (∀ i, s.visited i = true ↔ i ∈ s.order) ∧
  (∀ v, s.deps v = links.countP (fun l => l.2 == v && !(s.visited l.1))) ∧
  (∀ l ∈ links, l.2 ∈ s.order → List.Sublist [l.1, l.2] s.order)

/-! ## Builder and control-plane model

The graph builder (load_node, parse_link, link_free, lines 1349-1599)
and the control plane (find_port lines 670-721, set_control_value
lines 828-845, parse_params lines 847-887) work on the node/port/link
store.  The model keeps the same per-node dense port arrays, link
counters and n_deps counter; nodes and ports are addressed by their
list positions, control values are exact rationals, and the SPA pod
scanning of parse_params is cut at the boundary: the model receives
the (name, typed value) pairs the source extracts.  spa_atou32 (base
0) numeric port references are modelled as decimal. -/

/-- An entry of the descriptor's full port list: its name (fc_port).
Default / min / max values live in default_control below. -/
structure FcPortDef where
  name : String
  deriving DecidableEq

/-- The cached descriptor (struct descriptor, lines 455-472): the full
port list plus the four dense index arrays (input/output/control/
notify, entries are indices into ports) and the parallel
default_control array. -/
structure Desc where
  ports : List FcPortDef
  input : List Nat
  output : List Nat
  control : List Nat
  notify : List Nat
  defaultControl : List Rat
  deriving DecidableEq

/-- State of one audio port (struct port): its link counter. -/
structure APort where
  nLinks : Nat
  deriving DecidableEq

/-- State of one control port (struct port): its current value. -/
structure CPort where
  controlData : Rat
  deriving DecidableEq

/-- One node (struct node, lines 489-508): name, descriptor, the dense
audio-in / audio-out / control port arrays and the n_deps counter
(notify ports carry no state the claims touch). -/
structure GNode where
  name : String
  desc : Desc
  inPorts : List APort
  outPorts : List APort
  ctlPorts : List CPort
  nDeps : Nat
  deriving DecidableEq

/-- One link (struct link): output endpoint (node, dense audio-out
index) and input endpoint (node, dense audio-in index). -/
structure GLink where
  outNode : Nat
  outIdx : Nat
  inNode : Nat
  inIdx : Nat
  deriving DecidableEq

/-- The graph under construction: node list and link list. -/
structure GraphState where
  nodes : List GNode
  links : List GLink
  deriving DecidableEq

def defaultFcPortDef : FcPortDef := { name := "" }

def defaultDesc : Desc :=
  { ports := [], input := [], output := [], control := [], notify := [], defaultControl := [] }

def defaultAPort : APort := { nLinks := 0 }

def defaultCPort : CPort := { controlData := 0 }

def defaultGNode : GNode :=
  { name := "", desc := defaultDesc, inPorts := [], outPorts := [], ctlPorts := [], nDeps := 0 }

/-- Node at position ni (out-of-range reads yield the all-empty
default, mirroring that the source never indexes out of range). -/
def gNode (g : GraphState) (ni : Nat) : GNode := g.nodes.getD ni defaultGNode

/-- The port-kind selector of find_port: FC_PORT_INPUT/OUTPUT possibly
combined with FC_PORT_CONTROL (lines 694-711). -/
inductive PortSel where
  | audioIn
  | audioOut
  | ctrlIn
  | ctrlOut
  deriving DecidableEq

/-- The dense index array find_port scans for a selector. -/
def selPorts (d : Desc) : PortSel → List Nat
  | PortSel.audioIn => d.input
  | PortSel.audioOut => d.output
  | PortSel.ctrlIn => d.control
  | PortSel.ctrlOut => d.notify

/-- find_node (lines 654-662): first node whose name matches. -/
def find_node (g : GraphState) (name : String) : Option Nat :=
  (List.range g.nodes.length).find? (fun i => (gNode g i).name == name)

/-- strchr(str, ':') over the character list: the part before the
first colon and the part after it, or none when no colon occurs. -/
def splitAtColon : List Char → Option (List Char × List Char)
  | [] => none
  | c :: cs =>
    if c = ':' then some ([], cs)
    else
      match splitAtColon cs with
      | none => none
      | some r => some (c :: r.1, r.2)

/-- The strchr-based split of a port reference (lines 677-687): the
part before the first colon names the node, the rest names the port;
without a colon the whole string names the port in the default node. -/
def splitRef (s : String) : Option String × String :=
  match splitAtColon s.data with
  | none => (none, s)
  | some r => (some (String.mk r.1), String.mk r.2)

/-- Value of a decimal digit character. -/
def digitVal (c : Char) : Option Nat :=
  if 48 ≤ c.toNat ∧ c.toNat ≤ 57 then some (c.toNat - 48) else none

/-- Decimal parse of the accumulated digits. -/
def parseNatChars : List Char → Nat → Option Nat
  | [], acc => some acc
  | c :: cs, acc =>
    match digitVal c with
    | none => none
    | some d => parseNatChars cs (acc * 10 + d)

/-- spa_atou32 (line 691) modelled for decimal input: a nonempty
all-digit string parses to its value, anything else fails (and
find_port then treats the reference as a name). -/
def parseNat (s : String) : Option Nat :=
  match s.data with
  | [] => none
  | cs => parseNatChars cs 0

/-- The scan loop of find_port (lines 714-719): the first position i
whose index matches the parsed numeric reference or whose descriptor
port name matches. -/
def searchPort (d : Desc) (idxs : List Nat) (portId : Option Nat) (portName : String) :
    Option Nat :=
  (List.range idxs.length).find? (fun i =>
    (some i == portId) || ((d.ports.getD (idxs.getD i 0) defaultFcPortDef).name == portName))

/-- The node a reference designates: the default node when the
reference has no node part, otherwise the named node. -/
def refNode (g : GraphState) (defNode : Nat) (r1 : Option String) : Option Nat :=
  match r1 with
  | none => some defNode
  | some nname => find_node g nname

/-- find_port (lines 670-721): resolve "node:port", "port", "node:idx"
or "idx" against a default node, returning (node position, dense port
position within the selected kind). -/
def find_port (g : GraphState) (defNode : Nat) (name : String) (sel : PortSel) :
    Option (Nat × Nat) :=
  match refNode g defNode (splitRef name).1 with
  | none => none
  | some ni =>
    match searchPort (gNode g ni).desc (selPorts (gNode g ni).desc sel)
        (parseNat (splitRef name).2) (splitRef name).2 with
    | none => none
    | some i => some (ni, i)

/-- Replace node ni by f applied to it (no-op when out of range, as in
the source where the node pointer is always valid). -/
def modifyNode (g : GraphState) (ni : Nat) (f : GNode → GNode) : GraphState :=
  { g with nodes := g.nodes.set ni (f (gNode g ni)) }

/-- out_port->n_links++ on node ni, dense out index oi. -/
def bumpOutPort (g : GraphState) (ni oi : Nat) : GraphState :=
  modifyNode g ni (fun n =>
    { n with outPorts := n.outPorts.set oi { nLinks := (n.outPorts.getD oi defaultAPort).nLinks + 1 } })

/-- in_port->n_links++ on node ni, dense in index ii. -/
def bumpInPort (g : GraphState) (ni ii : Nat) : GraphState :=
  modifyNode g ni (fun n =>
    { n with inPorts := n.inPorts.set ii { nLinks := (n.inPorts.getD ii defaultAPort).nLinks + 1 } })

/-- node->n_deps++ on node ni. -/
def bumpDeps (g : GraphState) (ni : Nat) : GraphState :=
  modifyNode g ni (fun n => { n with nDeps := n.nDeps + 1 })

/-- out_port->n_links-- on node ni. -/
def dropOutPort (g : GraphState) (ni oi : Nat) : GraphState :=
  modifyNode g ni (fun n =>
    { n with outPorts := n.outPorts.set oi { nLinks := (n.outPorts.getD oi defaultAPort).nLinks - 1 } })

/-- in_port->n_links-- on node ni. -/
def dropInPort (g : GraphState) (ni ii : Nat) : GraphState :=
  modifyNode g ni (fun n =>
    { n with inPorts := n.inPorts.set ii { nLinks := (n.inPorts.getD ii defaultAPort).nLinks - 1 } })

/-- node->n_deps-- on node ni. -/
def dropDeps (g : GraphState) (ni : Nat) : GraphState :=
  modifyNode g ni (fun n => { n with nDeps := n.nDeps - 1 })

/-- Link creation bookkeeping of parse_link (lines 1400-1419): append
the link to both ports' lists (n_links++ on each side), n_deps++ on
the input node, and append the link to the graph list. -/
def addLink (g : GraphState) (op ip : Nat × Nat) : GraphState :=
  let g1 := bumpOutPort g op.1 op.2
  let g2 := bumpInPort g1 ip.1 ip.2
  let g3 := bumpDeps g2 ip.1
  { g3 with links := g3.links ++
      [{ outNode := op.1, outIdx := op.2, inNode := ip.1, inIdx := ip.2 }] }

/-- parse_link (lines 1354-1422), after JSON key extraction: resolve
the output reference against the FIRST node and the input reference
against the LAST node, reject a second link into an input port with
ENOTSUP ("use a mixer"), then record the link. -/
def parse_link (g : GraphState) (output input : String) : Except FcError GraphState :=
  if g.nodes.isEmpty then Except.error FcError.INVAL
  else
    match find_port g 0 output PortSel.audioOut with
    | none => Except.error FcError.NOENT
    | some op =>
      match find_port g (g.nodes.length - 1) input PortSel.audioIn with
      | none => Except.error FcError.NOENT
      | some ip =>
        if 0 < ((gNode g ip.1).inPorts.getD ip.2 defaultAPort).nLinks then
          Except.error FcError.NOTSUP
        else
          Except.ok (addLink g op ip)

/-- link_free (lines 1424-1433) on the k-th link of the graph list:
n_links-- on the input port, n_deps-- on the input node, n_links-- on
the output port, remove the link (identity when no such link exists,
since the source can only free an existing link). -/
def link_free (g : GraphState) (k : Nat) : GraphState :=
  match g.links.get? k with
  | none => g
  | some l =>
    let g1 := dropInPort g l.inNode l.inIdx
    let g2 := dropDeps g1 l.inNode
    let g3 := dropOutPort g2 l.outNode l.outIdx
    { g3 with links := g3.links.eraseIdx k }

/-- A builder-phase operation: a parse_link attempt (which may fail,
leaving the state unchanged) or a link_free. -/
inductive BuildOp where
  | plink (output input : String)
  | lfree (k : Nat)

/-- Apply one builder operation; a failed parse_link leaves the graph
as it was (the source returns before mutating anything). -/
def applyBuildOp (g : GraphState) : BuildOp → GraphState
  | BuildOp.plink o i =>
    match parse_link g o i with
    | Except.ok g2 => g2
    | Except.error _ => g
  | BuildOp.lfree k => link_free g k

/-- A builder-phase history. -/
def applyBuildOps (g : GraphState) (ops : List BuildOp) : GraphState :=
  ops.foldl applyBuildOp g

/-- n_deps of node ni. -/
def nDepsAt (g : GraphState) (ni : Nat) : Nat := (gNode g ni).nDeps

/-- n_links of input port ii of node ni. -/
def inLinksAt (g : GraphState) (ni ii : Nat) : Nat :=
  ((gNode g ni).inPorts.getD ii defaultAPort).nLinks

/-- n_links of output port oi of node ni. -/
def outLinksAt (g : GraphState) (ni oi : Nat) : Nat :=
  ((gNode g ni).outPorts.getD oi defaultAPort).nLinks

/-- C10's invariant: every node's n_deps counts the links into its
input ports, and every port's n_links counts the links incident on
that port. -/
def countersOK (g : GraphState) : Prop :=
  (∀ ni, nDepsAt g ni = g.links.countP (fun l => l.inNode == ni)) ∧
  (∀ ni ii, inLinksAt g ni ii = g.links.countP (fun l => l.inNode == ni && l.inIdx == ii)) ∧
  (∀ ni oi, outLinksAt g ni oi = g.links.countP (fun l => l.outNode == ni && l.outIdx == oi))

/-- The port arrays have the lengths load_node allocated: one entry
per dense descriptor index (lines 1517-1546). -/
def structWF (g : GraphState) : Prop :=
  ∀ n ∈ g.nodes, n.inPorts.length = n.desc.input.length ∧
    n.outPorts.length = n.desc.output.length ∧
    n.ctlPorts.length = n.desc.control.length

instance decStructWF (g : GraphState) : Decidable (structWF g) := by
  unfold structWF
  infer_instance

/-- Links point at existing ports. -/
def linksWF (g : GraphState) : Prop :=
  ∀ l ∈ g.links, l.outNode < g.nodes.length ∧ l.inNode < g.nodes.length ∧
    l.outIdx < (gNode g l.outNode).outPorts.length ∧
    l.inIdx < (gNode g l.inNode).inPorts.length

/-- Every input port has at most one incoming link. -/
def inputPortsSingleLinked (g : GraphState) : Prop :=
  ∀ ni ii, inLinksAt g ni ii ≤ 1

/-- The builder-phase invariant bundle: well-formed port arrays,
well-formed links, correct counters. -/
def BuilderInv (g : GraphState) : Prop :=
  structWF g ∧ linksWF g ∧ countersOK g

/-! ## Control-plane model -/

/-- The typed values a parse_params pair can carry (lines 869-883):
float, double, int, bool, or any other pod (which yields a null value
pointer). -/
inductive PodVal where
  | floatVal (v : Rat)
  | doubleVal (v : Rat)
  | intVal (v : Int)
  | boolVal (b : Bool)
  | otherVal
  deriving DecidableEq

/-- The value coercions of parse_params: doubles and ints cast to
float, booleans map to 1.0 / 0.0, anything else is a null pointer. -/
def coerceVal : PodVal → Option Rat
  | PodVal.floatVal v => some v
  | PodVal.doubleVal v => some v
  | PodVal.intVal v => some (v : Rat)
  | PodVal.boolVal b => some (if b then 1 else 0)
  | PodVal.otherVal => none

/-- Current control_data of control port idx of node ni. -/
def getCtl (g : GraphState) (ni idx : Nat) : Rat :=
  ((gNode g ni).ctlPorts.getD idx defaultCPort).controlData

/-- Write control_data of control port idx of node ni. -/
def updCtl (g : GraphState) (ni idx : Nat) (v : Rat) : GraphState :=
  modifyNode g ni (fun n => { n with ctlPorts := n.ctlPorts.set idx { controlData := v } })

/-- set_control_value (lines 828-845): resolve the name as an input
control port; on failure report 0 changes; otherwise store the value
(or the descriptor default when the value pointer is null) and report
whether the stored value differs from the old one. -/
def set_control_value (g : GraphState) (defNode : Nat) (name : String) (value : Option Rat) :
    GraphState × Nat :=
  match find_port g defNode name PortSel.ctrlIn with
  | none => (g, 0)
  | some p =>
    let old := getCtl g p.1 p.2
    let newV := value.getD ((gNode g p.1).desc.defaultControl.getD p.2 0)
    (updCtl g p.1 p.2 newV, if old = newV then 0 else 1)

/-- One parse_params pair applied to the state (def_node is the first
node, position 0). -/
def applyParam (g : GraphState) (pr : String × PodVal) : GraphState × Nat :=
  set_control_value g 0 pr.1 (coerceVal pr.2)

/-- parse_params (lines 847-887): apply each (name, value) pair in
order, accumulating the change count. -/
def parse_params (g : GraphState) (ps : List (String × PodVal)) : GraphState × Nat :=
  ps.foldl (fun acc pr => ((applyParam acc.1 pr).1, acc.2 + (applyParam acc.1 pr).2)) (g, 0)

/-- The display name of a control port (lines 810-813):
"node:port", or just "port" when the node is unnamed. -/
def portParamName (n : GNode) (p : Nat) : String :=
  if n.name = "" then (n.desc.ports.getD p defaultFcPortDef).name
  else n.name ++ ":" ++ (n.desc.ports.getD p defaultFcPortDef).name

/-- The parameter snapshot of get_props_param (lines 792-826): one
(display name, current value) pair per control port (iterated here in
node-list order; the source iterates graph->control_port, which holds
the same ports in topological order). -/
def snapshot (g : GraphState) : List (String × Rat) :=
  (List.range g.nodes.length).flatMap (fun nj =>
    (List.range (gNode g nj).ctlPorts.length).map (fun i =>
      (portParamName (gNode g nj) ((gNode g nj).desc.control.getD i 0), getCtl g nj i)))

/-- The value a resolved pair writes: the coerced value, or the
descriptor default for a null value pointer. -/
def writtenVal (g : GraphState) (pr : String × PodVal) (q : Nat × Nat) : Rat :=
  (coerceVal pr.2).getD ((gNode g q.1).desc.defaultControl.getD q.2 0)

/-- The last value a pair list writes into control port (p1, p2), with
all names resolved against graph g (resolution is unaffected by
control-value writes). -/
def lastWrite (g : GraphState) (ps : List (String × PodVal)) (p1 p2 : Nat) : Option Rat :=
  ps.foldl (fun acc pr =>
    match find_port g 0 pr.1 PortSel.ctrlIn with
    | none => acc
    | some q => if q = (p1, p2) then some (writtenVal g pr q) else acc) none

/-- A node transformation that keeps the skeleton: name, descriptor
and port-array lengths (it may only touch counters and values). -/
def shapeF (f : GNode → GNode) : Prop :=
  ∀ n, (f n).name = n.name ∧ (f n).desc = n.desc ∧
    (f n).inPorts.length = n.inPorts.length ∧
    (f n).outPorts.length = n.outPorts.length ∧
    (f n).ctlPorts.length = n.ctlPorts.length

/-- Two graph states with the same skeleton: equally many nodes, and
per node the same name, descriptor and port-array lengths (only port
counters / control values may differ). -/
def ShapeEq (g g' : GraphState) : Prop :=
  g'.nodes.length = g.nodes.length ∧
  ∀ nj, (gNode g' nj).name = (gNode g nj).name ∧
    (gNode g' nj).desc = (gNode g nj).desc ∧
    (gNode g' nj).inPorts.length = (gNode g nj).inPorts.length ∧
    (gNode g' nj).outPorts.length = (gNode g nj).outPorts.length ∧
    (gNode g' nj).ctlPorts.length = (gNode g nj).ctlPorts.length

/-- Builder fixture: node "a" with a single audio output "Out", node
"b" with a single audio input "In", no links. -/
def builderFixture : GraphState :=
  { nodes :=
      [{ name := "a"
         desc := { ports := [{ name := "Out" }], input := [], output := [0],
                   control := [], notify := [], defaultControl := [] }
         inPorts := [], outPorts := [{ nLinks := 0 }], ctlPorts := [], nDeps := 0 },
       { name := "b"
         desc := { ports := [{ name := "In" }], input := [0], output := [],
                   control := [], notify := [], defaultControl := [] }
         inPorts := [{ nLinks := 0 }], outPorts := [], ctlPorts := [], nDeps := 0 }]
    links := [] }

/-- Control fixture: one node "m" with a single input control "Gain"
(current value 7, descriptor default 2). -/
def ctlFixture : GraphState :=
  { nodes :=
      [{ name := "m"
         desc := { ports := [{ name := "Gain" }], input := [], output := [],
                   control := [0], notify := [], defaultControl := [2] }
         inPorts := [], outPorts := [], ctlPorts := [{ controlData := 7 }], nDeps := 0 }]
    links := [] }

/-- A pair list that assigns the same control two distinct values. -/
def dupParams : List (String × PodVal) :=
  [("Gain", PodVal.floatVal 1), ("Gain", PodVal.floatVal 2)]

end FilterChain

namespace FilterChain

/-! ## Executor lemmas -/

theorem captureInLoop_events_shape (g : ExecGraph) :
    ∀ (ds : List SpaData) (i acc : Nat) (st : Int),
      ∀ e ∈ (captureInLoop g ds i acc st).1, ∃ k, e = Ev.connectIn k := by
  intro ds
  induction ds with
  | nil => intro i acc st e he; simp [captureInLoop] at he
  | cons d rest ih =>
    intro i acc st e he
    simp only [captureInLoop, List.mem_append] at he
    rcases he with he | he
    · split at he <;> simp at he
      exact ⟨i, he⟩
    · exact ih _ _ _ e he

theorem captureOutLoop_events_shape (g : ExecGraph) :
    ∀ (ds : List SpaData) (i acc : Nat),
      ∀ e ∈ (captureOutLoop g ds i acc).1,
        (∃ k, e = Ev.connectOut k) ∨ ∃ k sz, e = Ev.zeroOut k sz := by
  intro ds
  induction ds with
  | nil => intro i acc e he; simp [captureOutLoop] at he
  | cons d rest ih =>
    intro i acc e he
    simp only [captureOutLoop, List.mem_append] at he
    rcases he with he | he
    · split at he <;> simp at he
      · exact Or.inl ⟨i, he⟩
      · exact Or.inr ⟨i, _, he⟩
    · exact ih _ _ e he

theorem captureInLoop_outsize (g : ExecGraph) :
    ∀ (ds : List SpaData) (i acc : Nat) (st : Int), i ≠ 0 →
      (captureInLoop g ds i acc st).2.1 = (ds.map codeInSize).foldl min acc := by
  intro ds
  induction ds with
  | nil => intro i acc st _; simp [captureInLoop]
  | cons d rest ih =>
    intro i acc st hi
    simp only [captureInLoop, List.map_cons, List.foldl_cons]
    rw [if_neg hi, ih (i + 1) _ _ (Nat.succ_ne_zero i)]
    rfl

theorem captureInLoop_outsize_zero (g : ExecGraph) (d : SpaData) (rest : List SpaData)
    (acc : Nat) (st : Int) :
    (captureInLoop g (d :: rest) 0 acc st).2.1 = (rest.map codeInSize).foldl min (codeInSize d) := by
  simp only [captureInLoop, if_pos rfl]
  rw [captureInLoop_outsize g rest 1 _ _ (Nat.one_ne_zero)]
  rfl

theorem captureOutLoop_outsize (g : ExecGraph) :
    ∀ (ds : List SpaData) (i acc : Nat),
      (captureOutLoop g ds i acc).2 = ds.foldl (fun a dd => min a dd.maxsize) acc := by
  intro ds
  induction ds with
  | nil => intro i acc; simp [captureOutLoop]
  | cons d rest ih =>
    intro i acc
    simp only [captureOutLoop, List.foldl_cons]
    exact ih (i + 1) _

theorem captureOutLoop_events (g : ExecGraph) :
    ∀ (ds : List SpaData) (i acc : Nat),
      (captureOutLoop g ds i acc).1 =
        (List.range ds.length).map (fun k =>
          if (g.output.getD (i + k) { hasDesc := false }).hasDesc then Ev.connectOut (i + k)
          else Ev.zeroOut (i + k) (outRunningSize acc ds k)) := by
  intro ds
  induction ds with
  | nil => intro i acc; simp [captureOutLoop]
  | cons d rest ih =>
    intro i acc
    simp only [captureOutLoop, List.length_cons]
    rw [ih (i + 1) (min acc d.maxsize)]
    rw [List.range_succ_eq_map, List.map_cons, List.map_map]
    have htail : List.map
        (fun k =>
          if (g.output.getD (i + 1 + k) { hasDesc := false }).hasDesc then Ev.connectOut (i + 1 + k)
          else Ev.zeroOut (i + 1 + k) (outRunningSize (min acc d.maxsize) rest k))
        (List.range rest.length) =
        List.map ((fun k =>
          if (g.output.getD (i + k) { hasDesc := false }).hasDesc then Ev.connectOut (i + k)
          else Ev.zeroOut (i + k) (outRunningSize acc (d :: rest) k)) ∘ Nat.succ)
        (List.range rest.length) := by
      apply List.map_congr_left
      intro k _
      simp only [Function.comp]
      have h1 : i + 1 + k = i + (k + 1) := by omega
      have h2 : outRunningSize acc (d :: rest) (k + 1) =
          outRunningSize (min acc d.maxsize) rest k := by
        simp [outRunningSize, List.take_succ_cons]
      rw [h1, h2]
    have hhead : (fun k =>
        if (g.output.getD (i + k) { hasDesc := false }).hasDesc then Ev.connectOut (i + k)
        else Ev.zeroOut (i + k) (outRunningSize acc (d :: rest) k)) 0 =
        if (g.output.getD i { hasDesc := false }).hasDesc then Ev.connectOut i
        else Ev.zeroOut i (min acc d.maxsize) := by
      simp only [Nat.add_zero]
      have h0 : outRunningSize acc (d :: rest) 0 = min acc d.maxsize := by
        simp [outRunningSize]
      rw [h0]
    have hsing : (if (g.output.getD i { hasDesc := false }).hasDesc
        then [Ev.connectOut i] else [Ev.zeroOut i (min acc d.maxsize)]) =
        [if (g.output.getD i { hasDesc := false }).hasDesc
         then Ev.connectOut i else Ev.zeroOut i (min acc d.maxsize)] := by
      split <;> rfl
    rw [hsing, List.singleton_append, htail, ← hhead]

theorem captureOutLoop_events_zero (g : ExecGraph) (ds : List SpaData) (acc : Nat) :
    (captureOutLoop g ds 0 acc).1 =
      (List.range ds.length).map (fun k =>
        if (g.output.getD k { hasDesc := false }).hasDesc then Ev.connectOut k
        else Ev.zeroOut k (outRunningSize acc ds k)) := by
  rw [captureOutLoop_events]
  apply List.map_congr_left
  intro k _
  rw [Nat.zero_add]

theorem filter_isRun_inLoop (g : ExecGraph) (ds : List SpaData) (i acc : Nat) (st : Int) :
    ((captureInLoop g ds i acc st).1).filter isRun = [] := by
  rw [List.filter_eq_nil_iff]
  intro e he
  obtain ⟨k, rfl⟩ := captureInLoop_events_shape g ds i acc st e he
  simp [isRun]

theorem filter_isRun_outLoop (g : ExecGraph) (ds : List SpaData) (i acc : Nat) :
    ((captureOutLoop g ds i acc).1).filter isRun = [] := by
  rw [List.filter_eq_nil_iff]
  intro e he
  rcases captureOutLoop_events_shape g ds i acc e he with ⟨k, rfl⟩ | ⟨k, sz, rfl⟩ <;>
    simp [isRun]

theorem filter_isRun_runs (l : List Nat) (F : Nat) :
    (l.map (fun k => Ev.runHndl k F)).filter isRun = l.map (fun k => Ev.runHndl k F) := by
  induction l with
  | nil => rfl
  | cons a l ih => simp only [List.map_cons, List.filter_cons, isRun, ih]; rfl

/-- The byte count the executor feeds to run equals the spec's minimum
expression, provided each input chunk offset is within maxsize. -/
theorem executor_outsize_eq_spec (g : ExecGraph) (ib ob : PwBuffer)
    (hne : ib.datas ≠ []) (hoff : ∀ ds ∈ ib.datas, ds.chunk.offset ≤ ds.maxsize) :
    (captureOutLoop g ob.datas 0 (captureInLoop g ib.datas 0 0 0).2.1).2 / sizeofFloat =
      specFrames ib.datas ob.datas := by
  rw [captureOutLoop_outsize]
  rcases hib : ib.datas with _ | ⟨d, rest⟩
  · exact absurd hib hne
  · have hcs : ∀ ds ∈ d :: rest, codeInSize ds = specInSize ds := by
      intro ds hds
      have h1 : min ds.chunk.offset ds.maxsize = ds.chunk.offset :=
        Nat.min_eq_left (hoff ds (hib ▸ hds))
      simp [codeInSize, specInSize, h1]
    rw [captureInLoop_outsize_zero]
    simp only [specFrames, List.map_cons]
    have hmap : rest.map codeInSize = rest.map specInSize :=
      List.map_congr_left (fun ds hds => hcs ds (List.mem_cons_of_mem d hds))
    have hd : codeInSize d = specInSize d := hcs d (List.mem_cons_self d rest)
    rw [hmap, hd]

/-- C4: if dequeuing the input buffer or the output buffer returns
none, the executor does no graph work in that period (no handle is
run, no port is reconnected or zeroed), yet every buffer that was
dequeued is queued back to its stream; capture_process has no error
return at all (it is void in the source). -/
theorem executor_skips_period_on_missing_buffer (g : ExecGraph) (inB outB : Option PwBuffer)
    (h : inB = none ∨ outB = none) :
    (capture_process g inB outB).filter isWork = [] ∧
    (inB ≠ none → Ev.queueCapture ∈ capture_process g inB outB) ∧
    (outB ≠ none → Ev.queuePlayback ∈ capture_process g inB outB) := by
  rcases inB with _ | ib <;> rcases outB with _ | ob <;>
    simp [capture_process, isWork] at h ⊢

/-- Witness for C4 at a concrete input: capture buffer missing,
playback buffer present. -/
theorem executor_skips_period_on_missing_buffer_witness :
    (capture_process ⟨[], [], 2⟩ none (some ⟨[]⟩)).filter isWork = [] ∧
    ((none : Option PwBuffer) ≠ none → Ev.queueCapture ∈ capture_process ⟨[], [], 2⟩ none (some ⟨[]⟩)) ∧
    ((some (⟨[]⟩ : PwBuffer)) ≠ none → Ev.queuePlayback ∈ capture_process ⟨[], [], 2⟩ none (some ⟨[]⟩)) :=
  executor_skips_period_on_missing_buffer ⟨[], [], 2⟩ none (some ⟨[]⟩) (Or.inl rfl)

/-- C5: in a period where both buffers are available, the executor
runs each graph.hndl entry exactly once, in array order, with a frame
count equal to the minimum over all input data slots of
min(chunk.size, maxsize - offset), clipped by every output slot's
maxsize, divided by sizeof(float); and each output slot with a null
descriptor is zeroed (with the running clipped byte count) instead of
connected. -/
theorem executor_full_period (g : ExecGraph) (ib ob : PwBuffer)
    (hne : ib.datas ≠ [])
    (hoff : ∀ ds ∈ ib.datas, ds.chunk.offset ≤ ds.maxsize) :
    ((capture_process g (some ib) (some ob)).filter isRun =
      (List.range g.nHndl).map (fun k => Ev.runHndl k (specFrames ib.datas ob.datas))) ∧
    (∀ j, j < ob.datas.length →
      ((g.output.getD j { hasDesc := false }).hasDesc = true →
        Ev.connectOut j ∈ capture_process g (some ib) (some ob)) ∧
      ((g.output.getD j { hasDesc := false }).hasDesc = false →
        Ev.zeroOut j (outRunningSize (captureInLoop g ib.datas 0 0 0).2.1 ob.datas j)
            ∈ capture_process g (some ib) (some ob) ∧
          Ev.connectOut j ∉ capture_process g (some ib) (some ob))) := by
  constructor
  · show ((captureInLoop g ib.datas 0 0 0).1 ++
        (captureOutLoop g ob.datas 0 (captureInLoop g ib.datas 0 0 0).2.1).1 ++
        (List.range g.nHndl).map (fun k => Ev.runHndl k
          ((captureOutLoop g ob.datas 0 (captureInLoop g ib.datas 0 0 0).2.1).2 / sizeofFloat)) ++
        [Ev.queueCapture, Ev.queuePlayback, Ev.triggerProcess]).filter isRun = _
    rw [List.filter_append, List.filter_append, List.filter_append,
      filter_isRun_inLoop, filter_isRun_outLoop, filter_isRun_runs,
      executor_outsize_eq_spec g ib ob hne hoff]
    simp [isRun]
  · intro j hj
    have hevs : capture_process g (some ib) (some ob) =
        (captureInLoop g ib.datas 0 0 0).1 ++
        ((List.range ob.datas.length).map (fun k =>
          if (g.output.getD k { hasDesc := false }).hasDesc then Ev.connectOut k
          else Ev.zeroOut k (outRunningSize (captureInLoop g ib.datas 0 0 0).2.1 ob.datas k)) ++
        ((List.range g.nHndl).map (fun k => Ev.runHndl k
          ((captureOutLoop g ob.datas 0 (captureInLoop g ib.datas 0 0 0).2.1).2 / sizeofFloat)) ++
        [Ev.queueCapture, Ev.queuePlayback, Ev.triggerProcess])) := by
      show (captureInLoop g ib.datas 0 0 0).1 ++
          (captureOutLoop g ob.datas 0 (captureInLoop g ib.datas 0 0 0).2.1).1 ++ _ ++ _ = _
      rw [captureOutLoop_events_zero]
      simp [List.append_assoc]
    constructor
    · intro hdesc
      rw [hevs]
      apply List.mem_append_right
      apply List.mem_append_left
      apply List.mem_map.mpr
      exact ⟨j, List.mem_range.mpr hj, by rw [hdesc]; rfl⟩
    · intro hdesc
      constructor
      · rw [hevs]
        apply List.mem_append_right
        apply List.mem_append_left
        apply List.mem_map.mpr
        refine ⟨j, List.mem_range.mpr hj, ?_⟩
        rw [hdesc]
        rfl
      · rw [hevs]
        intro hmem
        rcases List.mem_append.mp hmem with hmem | hmem
        · obtain ⟨k, hk⟩ := captureInLoop_events_shape g ib.datas 0 0 0 _ hmem
          exact Ev.noConfusion hk
        rcases List.mem_append.mp hmem with hmem | hmem
        · obtain ⟨k, hk, heq⟩ := List.mem_map.mp hmem
          by_cases h2 : (g.output.getD k { hasDesc := false }).hasDesc
          · rw [if_pos h2] at heq
            have hkj : k = j := Ev.connectOut.inj heq
            rw [hkj] at h2
            rw [hdesc] at h2
            exact Bool.noConfusion h2
          · rw [if_neg h2] at heq
            exact Ev.noConfusion heq
        rcases List.mem_append.mp hmem with hmem | hmem
        · obtain ⟨k, hk, heq⟩ := List.mem_map.mp hmem
          exact Ev.noConfusion heq
        · simp at hmem

/-- Witness for C5 at a concrete input: one input plane of 32 bytes
with offset 0 inside maxsize 64, one null output plane of maxsize 24,
two handles; frames = min(32, 64 - 0) clipped by 24, divided by 4. -/
theorem executor_full_period_witness :
    (((capture_process execFixtureGraph (some execFixtureIn) (some execFixtureOut)).filter isRun =
      (List.range execFixtureGraph.nHndl).map
        (fun k => Ev.runHndl k (specFrames execFixtureIn.datas execFixtureOut.datas)))) ∧
    (∀ j, j < execFixtureOut.datas.length →
      ((execFixtureGraph.output.getD j { hasDesc := false }).hasDesc = true →
        Ev.connectOut j ∈ capture_process execFixtureGraph (some execFixtureIn) (some execFixtureOut)) ∧
      ((execFixtureGraph.output.getD j { hasDesc := false }).hasDesc = false →
        Ev.zeroOut j (outRunningSize (captureInLoop execFixtureGraph execFixtureIn.datas 0 0 0).2.1
            execFixtureOut.datas j)
            ∈ capture_process execFixtureGraph (some execFixtureIn) (some execFixtureOut) ∧
          Ev.connectOut j ∉ capture_process execFixtureGraph (some execFixtureIn) (some execFixtureOut))) :=
  executor_full_period execFixtureGraph execFixtureIn execFixtureOut
    (by decide) (by decide)

end FilterChain

namespace FilterChain

/-! ## Planner lemmas -/

theorem countP_split {α : Type} (l : List α) (p q : α → Bool) :
    l.countP p = l.countP (fun a => p a && q a) + l.countP (fun a => p a && !q a) := by
  induction l with
  | nil => rfl
  | cons a t ih =>
    simp only [List.countP_cons, ih]
    cases hp : p a <;> cases hq : q a <;> simp [hp, hq] <;> omega

theorem decDeps_apply (u : Nat) :
    ∀ (links : List (Nat × Nat)) (d : Nat → Nat) (v : Nat),
      decDeps links u d v = d v - links.countP (fun l => l.1 == u && l.2 == v) := by
  intro links
  induction links with
  | nil => intro d v; rfl
  | cons l ls ih =>
    intro d v
    simp only [decDeps, List.foldl_cons, List.countP_cons] at ih ⊢
    by_cases h1 : l.1 = u
    · rw [if_pos h1, ih]
      by_cases h2 : v = l.2
      · have hp : (l.1 == u && l.2 == v) = true := by
          simp [h1, h2]
        rw [if_pos h2]
        simp [hp]
        omega
      · have hp : (l.1 == u && l.2 == v) = false := by
          simp only [Bool.and_eq_false_iff]
          right
          simp only [beq_eq_false_iff_ne, ne_eq]
          exact fun hh => h2 hh.symm
        rw [if_neg h2]
        simp [hp]
    · rw [if_neg h1, ih]
      have hp : (l.1 == u && l.2 == v) = false := by
        simp [h1]
      simp [hp]

theorem findNextNode_spec (s : PlanState) (u : Nat) (h : findNextNode s = some u) :
    u < s.nNodes ∧ s.deps u = 0 ∧ s.visited u = false := by
  have h1 := List.find?_some h
  have h2 := List.mem_of_find?_eq_some h
  have h3 := (Bool.and_eq_true _ _).mp h1
  refine ⟨List.mem_range.mp h2, ?_, ?_⟩
  · simpa using h3.1
  · simpa using h3.2

theorem planInv_init (n : Nat) (links : List (Nat × Nat)) :
    PlanInv links (initPlanState n links) := by
  refine ⟨?_, ?_, ?_⟩
  · intro i
    simp [initPlanState]
  · intro v
    simp [initPlanState, inDegree]
  · intro l _ h2
    simp [initPlanState] at h2

theorem planInv_visit (links : List (Nat × Nat)) (s : PlanState) (u : Nat)
    (hInv : PlanInv links s) (hf : findNextNode s = some u) :
    PlanInv links (visitNode links s u) := by
  obtain ⟨inv1, inv2, inv3⟩ := hInv
  obtain ⟨hu_lt, hu_deps, hu_vis⟩ := findNextNode_spec s u hf
  have hpred : ∀ l ∈ links, l.2 = u → s.visited l.1 = true := by
    intro l hl h2
    have h0 : links.countP (fun l => l.2 == u && !(s.visited l.1)) = 0 := by
      rw [← inv2 u]; exact hu_deps
    by_contra hvis
    have hmem := List.countP_eq_zero.mp h0 l hl
    simp only [h2, beq_self_eq_true, Bool.true_and, Bool.not_eq_true'] at hmem
    exact hvis (by simpa using hmem)
  refine ⟨?_, ?_, ?_⟩
  · intro i
    simp only [visitNode, List.mem_append, List.mem_singleton]
    by_cases hiu : i = u
    · simp [hiu]
    · simp only [if_neg hiu]
      rw [inv1 i]
      constructor
      · exact fun h => Or.inl h
      · intro h
        rcases h with h | h
        · exact h
        · exact absurd h hiu
  · intro v
    simp only [visitNode]
    rw [decDeps_apply, inv2 v]
    rw [countP_split links (fun l => l.2 == v && !(s.visited l.1)) (fun l => l.1 == u)]
    have hA : links.countP (fun l => (l.2 == v && !(s.visited l.1)) && l.1 == u) =
        links.countP (fun l => l.1 == u && l.2 == v) := by
      apply List.countP_congr
      intro l _
      by_cases h1 : l.1 = u
      · simp [h1, hu_vis]
      · simp [h1]
    have hB : links.countP (fun l => (l.2 == v && !(s.visited l.1)) && !(l.1 == u)) =
        links.countP (fun l => l.2 == v && !(if l.1 = u then true else s.visited l.1)) := by
      apply List.countP_congr
      intro l _
      by_cases h1 : l.1 = u
      · simp [h1]
      · simp [h1]
    rw [hA, hB]
    omega
  · intro l hl h2
    simp only [visitNode, List.mem_append, List.mem_singleton] at h2 ⊢
    rcases h2 with h2 | h2
    · exact List.Sublist.trans (inv3 l hl h2) (List.sublist_append_left s.order [u])
    · have hvis : s.visited l.1 = true := hpred l hl h2
      have hmem : l.1 ∈ s.order := (inv1 l.1).mp hvis
      have : List.Sublist ([l.1] ++ [l.2]) (s.order ++ [u]) := by
        apply List.Sublist.append
        · exact List.singleton_sublist.mpr hmem
        · rw [h2]
      exact this

theorem planInv_topoWalk (links : List (Nat × Nat)) (fuel : Nat) :
    ∀ s, PlanInv links s → PlanInv links (topoWalk links fuel s) := by
  induction fuel with
  | zero => intro s h; exact h
  | succ n ih =>
    intro s h
    simp only [topoWalk]
    cases hf : findNextNode s with
    | none => exact h
    | some u => exact ih _ (planInv_visit links s u h hf)

theorem sublist_flatMap_of_forall2 {α β : Type} (g : α → List β) :
    ∀ {xs l : List α}, List.Sublist xs l →
      ∀ {ys : List β}, List.Forall₂ (fun x y => y ∈ g x) xs ys →
        List.Sublist ys (l.flatMap g) := by
  intro xs l h
  induction h with
  | slnil =>
    intro ys hys
    cases hys
    exact List.nil_sublist _
  | cons a h ih =>
    intro ys hys
    have := ih hys
    refine List.Sublist.trans this ?_
    rw [List.flatMap_cons]
    exact List.sublist_append_right _ _
  | cons₂ a h ih =>
    intro ys hys
    cases hys with
    | cons hy hys =>
      rename_i y ys'
      obtain ⟨s, t, hst⟩ := List.append_of_mem hy
      rw [List.flatMap_cons, hst, List.append_assoc]
      refine List.Sublist.trans ?_ (List.sublist_append_right s _)
      rw [List.cons_append]
      exact List.Sublist.cons₂ y (List.Sublist.trans (ih hys) (List.sublist_append_right t _))

theorem sublist_hndl_pair (order : List Nat) (u v i nH : Nat) (hi : i < nH)
    (h : List.Sublist [u, v] order) :
    List.Sublist [(u, i), (v, i)] (graphHndlOrder order nH) := by
  apply sublist_flatMap_of_forall2 _ h
  refine List.Forall₂.cons ?_ (List.Forall₂.cons ?_ List.Forall₂.nil)
  · exact List.mem_map.mpr ⟨i, List.mem_range.mpr hi, rfl⟩
  · exact List.mem_map.mpr ⟨i, List.mem_range.mpr hi, rfl⟩

end FilterChain

namespace FilterChain

/-! ## Planner claims -/

/-- C1 (amended): when the topological walk terminates while some
nodes remain unvisited, the graph contains a cycle, but planning is
NOT rejected: once the dimensioning step has succeeded, setup_graph
returns 0 (success) with the unvisited nodes simply missing from
graph.hndl; the source never compares the visit count against the
node count. -/
theorem setup_graph_cycle_no_error (captureCh playbackCh nInput nOutput nNodes k : Nat)
    (links : List (Nat × Nat))
    (h : computeNHndl captureCh playbackCh nInput nOutput = Except.ok k) :
    setupGraphPlan captureCh playbackCh nInput nOutput nNodes links =
      Except.ok (planOrder nNodes links) := by
  simp [setupGraphPlan, h]

/-- Witness for the amended C1: on the cyclic two-node description the
dimensioning step succeeds, so setup_graph returns success. -/
theorem setup_graph_cycle_no_error_witness :
    setupGraphPlan 1 1 1 1 2 [(0, 1), (1, 0)] = Except.ok (planOrder 2 [(0, 1), (1, 0)]) :=
  setup_graph_cycle_no_error 1 1 1 1 2 1 [(0, 1), (1, 0)] rfl

/-- C1 counterexample: a cyclic two-node description (links 0 to 1 and
1 to 0, so both nodes keep n_deps 1 and the walk visits nothing).
setup_graph returns ok - success with an empty graph.hndl - and not an
INVALID error, contradicting the claim that every cyclic description
is rejected. -/
theorem setup_graph_cycle_counterexample :
    setupGraphPlan 1 1 1 1 2 [(0, 1), (1, 0)] = Except.ok [] ∧
      planOrder 2 [(0, 1), (1, 0)] = [] :=
  ⟨rfl, rfl⟩

/-- C2 (amended): with nonzero port counts, the dimensioning step
fails with INVALID exactly when the two integer quotients differ or
when the common quotient exceeds MAX_HNDL (the claim's "exactly when
the quotients differ" misses the MAX_HNDL rejection, lines 1706-1710);
and when the quotients agree and do not exceed MAX_HNDL the step
succeeds, degrading a zero quotient to 1 (so the result is
max(quotient, 1)). -/
theorem n_hndl_validation (c p ni no : Nat) (hni : 0 < ni) (hno : 0 < no) :
    (computeNHndl c p ni no = Except.error FcError.INVAL ↔
      (effectiveChannels c ni / ni ≠ effectiveChannels p no / no ∨
        MAX_HNDL < effectiveChannels c ni / ni)) ∧
    (effectiveChannels c ni / ni = effectiveChannels p no / no →
      effectiveChannels c ni / ni ≤ MAX_HNDL →
      computeNHndl c p ni no = Except.ok (max (effectiveChannels c ni / ni) 1)) := by
  have hni' : ni ≠ 0 := Nat.pos_iff_ne_zero.mp hni
  have hno' : no ≠ 0 := Nat.pos_iff_ne_zero.mp hno
  simp only [computeNHndl, if_neg hni', if_neg hno']
  constructor
  · constructor
    · intro h
      by_cases h1 : effectiveChannels c ni / ni = effectiveChannels p no / no
      · right
        by_cases h2 : MAX_HNDL < effectiveChannels c ni / ni
        · exact h2
        · exfalso
          rw [if_neg (fun hh => hh h1), if_neg h2] at h
          by_cases h3 : effectiveChannels c ni / ni = 0
          · rw [if_pos h3] at h
            exact Except.noConfusion h
          · rw [if_neg h3] at h
            exact Except.noConfusion h
      · exact Or.inl h1
    · intro h
      rcases h with h1 | h2
      · rw [if_pos h1]
      · by_cases h1 : effectiveChannels c ni / ni ≠ effectiveChannels p no / no
        · rw [if_pos h1]
        · rw [if_neg h1, if_pos h2]
  · intro h1 h2
    rw [if_neg (fun hh => hh h1), if_neg (Nat.not_lt.mpr h2)]
    by_cases h3 : effectiveChannels c ni / ni = 0
    · rw [if_pos h3, h3]
      simp
    · rw [if_neg h3]
      have hm : max (effectiveChannels c ni / ni) 1 = effectiveChannels c ni / ni :=
        Nat.max_eq_left (Nat.one_le_iff_ne_zero.mpr h3)
      rw [hm]

/-- Witness for the amended C2: 4 capture channels over 2 inputs and 4
playback channels over 2 outputs succeed with n_hndl = 2. -/
theorem n_hndl_validation_witness :
    computeNHndl 4 4 2 2 = Except.ok (max (effectiveChannels 4 2 / 2) 1) :=
  (n_hndl_validation 4 4 2 2 (by decide) (by decide)).2 (by decide) (by decide)

/-- C2 counterexample: with 65 capture channels, 1 input, 65 playback
channels, 1 output, the two quotients are equal (65 = 65), yet the
dimensioning step fails with INVALID (because 65 exceeds MAX_HNDL),
contradicting "fails ... exactly when this differs". -/
theorem n_hndl_exact_iff_counterexample :
    computeNHndl 65 65 1 1 = Except.error FcError.INVAL ∧ (65 : Nat) / 1 = (65 : Nat) / 1 :=
  ⟨rfl, rfl⟩

/-- C3: after a planning pass whose topological walk visited every
node (the successful case), graph.hndl is a topological order of the
link DAG: for every link from node u to node v and every instance
index i below n_hndl, entry (u, handle i) appears strictly before
entry (v, handle i) in graph.hndl (expressed as the two-element list
being a sublist of the hndl order). -/
theorem graph_hndl_topological (n nH : Nat) (links : List (Nat × Nat))
    (hwf : ∀ l ∈ links, l.1 < n ∧ l.2 < n)
    (hall : ∀ i, i < n → i ∈ planOrder n links) :
    ∀ l ∈ links, ∀ i, i < nH →
      List.Sublist [(l.1, i), (l.2, i)] (graphHndlOrder (planOrder n links) nH) := by
  have hinv := planInv_topoWalk links n _ (planInv_init n links)
  intro l hl i hi
  have h2 : l.2 ∈ planOrder n links := hall l.2 (hwf l hl).2
  have hsub : List.Sublist [l.1, l.2] (planOrder n links) := hinv.2.2 l hl h2
  exact sublist_hndl_pair _ _ _ _ _ hi hsub

/-- Witness for C3: chain 0 to 1 with two instances; (0, handle 0)
precedes (1, handle 0) in graph.hndl. -/
theorem graph_hndl_topological_witness :
    List.Sublist [((0 : Nat), (0 : Nat)), ((1 : Nat), (0 : Nat))]
      (graphHndlOrder (planOrder 2 [(0, 1)]) 2) :=
  graph_hndl_topological 2 2 [(0, 1)] (by decide) (by decide) (0, 1) (by decide) 0 (by decide)

/-- C7 (amended): when the computed channel-duplication factor n_hndl
exceeds MAX_HNDL the planner does NOT clamp and proceed: it fails with
INVALID (lines 1706-1710 return -EINVAL). -/
theorem n_hndl_above_max_rejected (c p ni no : Nat) (hni : 0 < ni) (hno : 0 < no)
    (heq : effectiveChannels c ni / ni = effectiveChannels p no / no)
    (hmax : MAX_HNDL < effectiveChannels c ni / ni) :
    computeNHndl c p ni no = Except.error FcError.INVAL := by
  have hni' : ni ≠ 0 := Nat.pos_iff_ne_zero.mp hni
  have hno' : no ≠ 0 := Nat.pos_iff_ne_zero.mp hno
  simp only [computeNHndl, if_neg hni', if_neg hno']
  rw [if_neg (fun hh => hh heq), if_pos hmax]

/-- Witness for the amended C7 at 260 channels over 2 ports (quotient
130 above MAX_HNDL = 64). -/
theorem n_hndl_above_max_rejected_witness :
    computeNHndl 260 260 2 2 = Except.error FcError.INVAL :=
  n_hndl_above_max_rejected 260 260 2 2 (by decide) (by decide) (by decide) (by decide)

/-- C7 counterexample: 130 capture channels over 2 inputs give n_hndl
= 65 above MAX_HNDL = 64; the planner returns INVALID instead of
clamping to 64 and proceeding. -/
theorem n_hndl_no_clamp_counterexample :
    computeNHndl 130 130 2 2 = Except.error FcError.INVAL ∧ MAX_HNDL < 130 / 2 :=
  ⟨rfl, by decide⟩

end FilterChain

namespace FilterChain

/-! ## List access helpers -/

theorem getD_set_self {α : Type} : ∀ (l : List α) (i : Nat) (a d : α), i < l.length →
    (l.set i a).getD i d = a
  | [], i, _, _, h => absurd h (by simp)
  | _ :: _, 0, _, _, _ => rfl
  | _ :: xs, i + 1, a, d, h => getD_set_self xs i a d (Nat.lt_of_succ_lt_succ h)

theorem getD_set_ne {α : Type} : ∀ (l : List α) (i j : Nat) (a d : α), i ≠ j →
    (l.set i a).getD j d = l.getD j d
  | [], _, _, _, _, _ => rfl
  | _ :: _, 0, 0, _, _, h => absurd rfl h
  | _ :: _, 0, _ + 1, _, _, _ => rfl
  | _ :: _, _ + 1, 0, _, _, _ => rfl
  | _ :: xs, i + 1, j + 1, a, d, h =>
    getD_set_ne xs i j a d (fun hh => h (congrArg Nat.succ hh))

theorem set_oob {α : Type} : ∀ (l : List α) (i : Nat) (a : α), l.length ≤ i → l.set i a = l
  | [], _, _, _ => rfl
  | x :: _, 0, _, h => absurd h (by simp)
  | x :: xs, i + 1, a, h => congrArg (List.cons x) (set_oob xs i a (Nat.le_of_succ_le_succ h))

theorem getD_mem {α : Type} : ∀ (l : List α) (i : Nat) (d : α), i < l.length → l.getD i d ∈ l
  | x :: xs, 0, _, _ => List.mem_cons_self x xs
  | x :: xs, i + 1, d, h => List.mem_cons_of_mem x (getD_mem xs i d (Nat.lt_of_succ_lt_succ h))

theorem set_getD_self {α : Type} : ∀ (l : List α) (i : Nat) (d : α),
    l.set i (l.getD i d) = l
  | [], _, _ => rfl
  | _ :: _, 0, _ => rfl
  | x :: xs, i + 1, d => congrArg (List.cons x) (set_getD_self xs i d)

theorem find?_ext {α : Type} (p q : α → Bool) :
    ∀ l : List α, (∀ a ∈ l, p a = q a) → l.find? p = l.find? q := by
  intro l
  induction l with
  | nil => intro _; rfl
  | cons a t ih =>
    intro h
    rw [List.find?_cons, List.find?_cons, h a (List.mem_cons_self a t)]
    cases q a
    · exact ih (fun x hx => h x (List.mem_cons_of_mem a hx))
    · rfl

/-! ## Node update and shape lemmas -/

theorem gNode_modify_self (g : GraphState) (ni : Nat) (f : GNode → GNode)
    (h : ni < g.nodes.length) : gNode (modifyNode g ni f) ni = f (gNode g ni) :=
  getD_set_self _ _ _ _ h

theorem gNode_modify_ne (g : GraphState) (ni : Nat) (f : GNode → GNode) (nj : Nat)
    (h : ni ≠ nj) : gNode (modifyNode g ni f) nj = gNode g nj :=
  getD_set_ne _ _ _ _ _ h

theorem gNode_modify_oob (g : GraphState) (ni : Nat) (f : GNode → GNode) (nj : Nat)
    (h : g.nodes.length ≤ ni) : gNode (modifyNode g ni f) nj = gNode g nj := by
  unfold gNode modifyNode
  rw [set_oob _ _ _ h]

theorem modifyNode_links (g : GraphState) (ni : Nat) (f : GNode → GNode) :
    (modifyNode g ni f).links = g.links := rfl

theorem modifyNode_length (g : GraphState) (ni : Nat) (f : GNode → GNode) :
    (modifyNode g ni f).nodes.length = g.nodes.length :=
  List.length_set _ _ _

theorem shapeEq_refl (g : GraphState) : ShapeEq g g :=
  ⟨rfl, fun _ => ⟨rfl, rfl, rfl, rfl, rfl⟩⟩

theorem shapeEq_trans {g g1 g2 : GraphState} (h1 : ShapeEq g g1) (h2 : ShapeEq g1 g2) :
    ShapeEq g g2 := by
  refine ⟨h2.1.trans h1.1, fun nj => ?_⟩
  obtain ⟨a1, b1, c1, d1, e1⟩ := h1.2 nj
  obtain ⟨a2, b2, c2, d2, e2⟩ := h2.2 nj
  exact ⟨a2.trans a1, b2.trans b1, c2.trans c1, d2.trans d1, e2.trans e1⟩

theorem shapeEq_modify (g : GraphState) (ni : Nat) (f : GNode → GNode) (hf : shapeF f) :
    ShapeEq g (modifyNode g ni f) := by
  refine ⟨modifyNode_length g ni f, fun nj => ?_⟩
  by_cases h : ni < g.nodes.length
  · by_cases h2 : ni = nj
    · subst h2
      rw [gNode_modify_self g ni f h]
      exact hf (gNode g ni)
    · rw [gNode_modify_ne g ni f nj h2]
      exact ⟨rfl, rfl, rfl, rfl, rfl⟩
  · rw [gNode_modify_oob g ni f nj (Nat.not_lt.mp h)]
    exact ⟨rfl, rfl, rfl, rfl, rfl⟩

theorem shapeEq_bumpOutPort (g : GraphState) (ni oi : Nat) : ShapeEq g (bumpOutPort g ni oi) :=
  shapeEq_modify g ni _ (fun _ => ⟨rfl, rfl, rfl, List.length_set _ _ _, rfl⟩)

theorem shapeEq_bumpInPort (g : GraphState) (ni ii : Nat) : ShapeEq g (bumpInPort g ni ii) :=
  shapeEq_modify g ni _ (fun _ => ⟨rfl, rfl, List.length_set _ _ _, rfl, rfl⟩)

theorem shapeEq_bumpDeps (g : GraphState) (ni : Nat) : ShapeEq g (bumpDeps g ni) :=
  shapeEq_modify g ni _ (fun _ => ⟨rfl, rfl, rfl, rfl, rfl⟩)

theorem shapeEq_dropOutPort (g : GraphState) (ni oi : Nat) : ShapeEq g (dropOutPort g ni oi) :=
  shapeEq_modify g ni _ (fun _ => ⟨rfl, rfl, rfl, List.length_set _ _ _, rfl⟩)

theorem shapeEq_dropInPort (g : GraphState) (ni ii : Nat) : ShapeEq g (dropInPort g ni ii) :=
  shapeEq_modify g ni _ (fun _ => ⟨rfl, rfl, List.length_set _ _ _, rfl, rfl⟩)

theorem shapeEq_dropDeps (g : GraphState) (ni : Nat) : ShapeEq g (dropDeps g ni) :=
  shapeEq_modify g ni _ (fun _ => ⟨rfl, rfl, rfl, rfl, rfl⟩)

theorem shapeEq_updCtl (g : GraphState) (ni idx : Nat) (v : Rat) : ShapeEq g (updCtl g ni idx v) :=
  shapeEq_modify g ni _ (fun _ => ⟨rfl, rfl, rfl, rfl, List.length_set _ _ _⟩)

/-! ## find_port lemmas -/

theorem find_node_shape (g g' : GraphState) (h : ShapeEq g g') (s : String) :
    find_node g' s = find_node g s := by
  unfold find_node
  rw [h.1]
  exact find?_ext _ _ _ (fun i _ => by rw [(h.2 i).1])

theorem refNode_shape (g g' : GraphState) (h : ShapeEq g g') (dn : Nat) (r1 : Option String) :
    refNode g' dn r1 = refNode g dn r1 := by
  cases r1 with
  | none => rfl
  | some s => exact find_node_shape g g' h s

theorem find_port_shape (g g' : GraphState) (h : ShapeEq g g') (dn : Nat) (nm : String)
    (sel : PortSel) : find_port g' dn nm sel = find_port g dn nm sel := by
  unfold find_port
  rw [refNode_shape g g' h]
  cases hr : refNode g dn (splitRef nm).1 with
  | none => rfl
  | some ni =>
    dsimp only
    rw [(h.2 ni).2.1]

theorem find_port_idx_lt (g : GraphState) (dn : Nat) (nm : String) (sel : PortSel)
    (ni ii : Nat) (h : find_port g dn nm sel = some (ni, ii)) :
    ii < (selPorts (gNode g ni).desc sel).length := by
  unfold find_port at h
  split at h
  · exact Option.noConfusion h
  · rename_i nk hr
    split at h
    · exact Option.noConfusion h
    · rename_i i hs
      have h1 : nk = ni ∧ i = ii := by
        have h0 := Option.some.inj h
        exact ⟨congrArg Prod.fst h0, congrArg Prod.snd h0⟩
      obtain ⟨rfl, rfl⟩ := h1
      exact List.mem_range.mp (List.mem_of_find?_eq_some hs)

theorem find_port_node_lt (g : GraphState) (dn : Nat) (nm : String) (sel : PortSel)
    (ni ii : Nat) (hdn : dn < g.nodes.length) (h : find_port g dn nm sel = some (ni, ii)) :
    ni < g.nodes.length := by
  unfold find_port at h
  split at h
  · exact Option.noConfusion h
  · rename_i nk hr
    split at h
    · exact Option.noConfusion h
    · rename_i i hs
      have h1 : nk = ni := congrArg Prod.fst (Option.some.inj h)
      subst h1
      unfold refNode at hr
      cases hx : (splitRef nm).1 with
      | none =>
        rw [hx] at hr
        have h2 : dn = nk := Option.some.inj hr
        subst h2
        exact hdn
      | some s =>
        rw [hx] at hr
        unfold find_node at hr
        exact List.mem_range.mp (List.mem_of_find?_eq_some hr)

end FilterChain

namespace FilterChain

/-! ## Counter accessor lemmas -/

theorem nDepsAt_modify (g : GraphState) (ni : Nat) (f : GNode → GNode) (nj : Nat)
    (hf : ∀ n, (f n).nDeps = n.nDeps) :
    nDepsAt (modifyNode g ni f) nj = nDepsAt g nj := by
  unfold nDepsAt
  by_cases h : ni < g.nodes.length
  · by_cases h2 : ni = nj
    · subst h2
      rw [gNode_modify_self g ni f h, hf]
    · rw [gNode_modify_ne g ni f nj h2]
  · rw [gNode_modify_oob g ni f nj (Nat.not_lt.mp h)]

theorem inLinksAt_modify (g : GraphState) (ni : Nat) (f : GNode → GNode) (nj jj : Nat)
    (hf : ∀ n, (f n).inPorts = n.inPorts) :
    inLinksAt (modifyNode g ni f) nj jj = inLinksAt g nj jj := by
  unfold inLinksAt
  by_cases h : ni < g.nodes.length
  · by_cases h2 : ni = nj
    · subst h2
      rw [gNode_modify_self g ni f h, hf]
    · rw [gNode_modify_ne g ni f nj h2]
  · rw [gNode_modify_oob g ni f nj (Nat.not_lt.mp h)]

theorem outLinksAt_modify (g : GraphState) (ni : Nat) (f : GNode → GNode) (nj jj : Nat)
    (hf : ∀ n, (f n).outPorts = n.outPorts) :
    outLinksAt (modifyNode g ni f) nj jj = outLinksAt g nj jj := by
  unfold outLinksAt
  by_cases h : ni < g.nodes.length
  · by_cases h2 : ni = nj
    · subst h2
      rw [gNode_modify_self g ni f h, hf]
    · rw [gNode_modify_ne g ni f nj h2]
  · rw [gNode_modify_oob g ni f nj (Nat.not_lt.mp h)]

theorem getCtl_modify (g : GraphState) (ni : Nat) (f : GNode → GNode) (nj jj : Nat)
    (hf : ∀ n, (f n).ctlPorts = n.ctlPorts) :
    getCtl (modifyNode g ni f) nj jj = getCtl g nj jj := by
  unfold getCtl
  by_cases h : ni < g.nodes.length
  · by_cases h2 : ni = nj
    · subst h2
      rw [gNode_modify_self g ni f h, hf]
    · rw [gNode_modify_ne g ni f nj h2]
  · rw [gNode_modify_oob g ni f nj (Nat.not_lt.mp h)]

theorem nDepsAt_bumpOutPort (g : GraphState) (a b nj : Nat) :
    nDepsAt (bumpOutPort g a b) nj = nDepsAt g nj :=
  nDepsAt_modify g a _ nj (fun _ => rfl)

theorem nDepsAt_bumpInPort (g : GraphState) (a b nj : Nat) :
    nDepsAt (bumpInPort g a b) nj = nDepsAt g nj :=
  nDepsAt_modify g a _ nj (fun _ => rfl)

theorem nDepsAt_dropOutPort (g : GraphState) (a b nj : Nat) :
    nDepsAt (dropOutPort g a b) nj = nDepsAt g nj :=
  nDepsAt_modify g a _ nj (fun _ => rfl)

theorem nDepsAt_dropInPort (g : GraphState) (a b nj : Nat) :
    nDepsAt (dropInPort g a b) nj = nDepsAt g nj :=
  nDepsAt_modify g a _ nj (fun _ => rfl)

theorem inLinksAt_bumpOutPort (g : GraphState) (a b nj jj : Nat) :
    inLinksAt (bumpOutPort g a b) nj jj = inLinksAt g nj jj :=
  inLinksAt_modify g a _ nj jj (fun _ => rfl)

theorem inLinksAt_bumpDeps (g : GraphState) (a nj jj : Nat) :
    inLinksAt (bumpDeps g a) nj jj = inLinksAt g nj jj :=
  inLinksAt_modify g a _ nj jj (fun _ => rfl)

theorem inLinksAt_dropOutPort (g : GraphState) (a b nj jj : Nat) :
    inLinksAt (dropOutPort g a b) nj jj = inLinksAt g nj jj :=
  inLinksAt_modify g a _ nj jj (fun _ => rfl)

theorem inLinksAt_dropDeps (g : GraphState) (a nj jj : Nat) :
    inLinksAt (dropDeps g a) nj jj = inLinksAt g nj jj :=
  inLinksAt_modify g a _ nj jj (fun _ => rfl)

theorem outLinksAt_bumpInPort (g : GraphState) (a b nj jj : Nat) :
    outLinksAt (bumpInPort g a b) nj jj = outLinksAt g nj jj :=
  outLinksAt_modify g a _ nj jj (fun _ => rfl)

theorem outLinksAt_bumpDeps (g : GraphState) (a nj jj : Nat) :
    outLinksAt (bumpDeps g a) nj jj = outLinksAt g nj jj :=
  outLinksAt_modify g a _ nj jj (fun _ => rfl)

theorem outLinksAt_dropInPort (g : GraphState) (a b nj jj : Nat) :
    outLinksAt (dropInPort g a b) nj jj = outLinksAt g nj jj :=
  outLinksAt_modify g a _ nj jj (fun _ => rfl)

theorem outLinksAt_dropDeps (g : GraphState) (a nj jj : Nat) :
    outLinksAt (dropDeps g a) nj jj = outLinksAt g nj jj :=
  outLinksAt_modify g a _ nj jj (fun _ => rfl)

theorem nDepsAt_bumpDeps_self (g : GraphState) (a : Nat) (h : a < g.nodes.length) :
    nDepsAt (bumpDeps g a) a = nDepsAt g a + 1 := by
  unfold nDepsAt bumpDeps
  rw [gNode_modify_self g a _ h]

theorem nDepsAt_bumpDeps_ne (g : GraphState) (a nj : Nat) (h : nj ≠ a) :
    nDepsAt (bumpDeps g a) nj = nDepsAt g nj := by
  by_cases h1 : a < g.nodes.length
  · unfold nDepsAt bumpDeps
    rw [gNode_modify_ne g a _ nj (fun hh => h hh.symm)]
  · unfold nDepsAt bumpDeps
    rw [gNode_modify_oob g a _ nj (Nat.not_lt.mp h1)]

theorem nDepsAt_dropDeps_self (g : GraphState) (a : Nat) (h : a < g.nodes.length) :
    nDepsAt (dropDeps g a) a = nDepsAt g a - 1 := by
  unfold nDepsAt dropDeps
  rw [gNode_modify_self g a _ h]

theorem nDepsAt_dropDeps_ne (g : GraphState) (a nj : Nat) (h : nj ≠ a) :
    nDepsAt (dropDeps g a) nj = nDepsAt g nj := by
  by_cases h1 : a < g.nodes.length
  · unfold nDepsAt dropDeps
    rw [gNode_modify_ne g a _ nj (fun hh => h hh.symm)]
  · unfold nDepsAt dropDeps
    rw [gNode_modify_oob g a _ nj (Nat.not_lt.mp h1)]

theorem inLinksAt_bumpInPort_self (g : GraphState) (a b : Nat)
    (h1 : a < g.nodes.length) (h2 : b < (gNode g a).inPorts.length) :
    inLinksAt (bumpInPort g a b) a b = inLinksAt g a b + 1 := by
  unfold inLinksAt bumpInPort
  rw [gNode_modify_self g a _ h1]
  dsimp only
  rw [getD_set_self _ _ _ _ h2]

theorem inLinksAt_bumpInPort_ne (g : GraphState) (a b nj jj : Nat)
    (h : ¬(nj = a ∧ jj = b)) :
    inLinksAt (bumpInPort g a b) nj jj = inLinksAt g nj jj := by
  by_cases h1 : a < g.nodes.length
  · by_cases h2 : a = nj
    · subst h2
      have hjj : jj ≠ b := fun hh => h ⟨rfl, hh⟩
      unfold inLinksAt bumpInPort
      rw [gNode_modify_self g a _ h1]
      dsimp only
      rw [getD_set_ne _ _ _ _ _ (fun hh => hjj hh.symm)]
    · unfold inLinksAt bumpInPort
      rw [gNode_modify_ne g a _ nj h2]
  · unfold inLinksAt bumpInPort
    rw [gNode_modify_oob g a _ nj (Nat.not_lt.mp h1)]

theorem inLinksAt_bumpInPort_idx_oob (g : GraphState) (a b : Nat)
    (h2 : (gNode g a).inPorts.length ≤ b) (nj jj : Nat) :
    inLinksAt (bumpInPort g a b) nj jj = inLinksAt g nj jj := by
  by_cases h1 : a < g.nodes.length
  · by_cases h3 : a = nj
    · subst h3
      unfold inLinksAt bumpInPort
      rw [gNode_modify_self g a _ h1]
      dsimp only
      rw [set_oob _ _ _ h2]
    · unfold inLinksAt bumpInPort
      rw [gNode_modify_ne g a _ nj h3]
  · unfold inLinksAt bumpInPort
    rw [gNode_modify_oob g a _ nj (Nat.not_lt.mp h1)]

theorem inLinksAt_dropInPort_self (g : GraphState) (a b : Nat)
    (h1 : a < g.nodes.length) (h2 : b < (gNode g a).inPorts.length) :
    inLinksAt (dropInPort g a b) a b = inLinksAt g a b - 1 := by
  unfold inLinksAt dropInPort
  rw [gNode_modify_self g a _ h1]
  dsimp only
  rw [getD_set_self _ _ _ _ h2]

theorem inLinksAt_dropInPort_ne (g : GraphState) (a b nj jj : Nat)
    (h : ¬(nj = a ∧ jj = b)) :
    inLinksAt (dropInPort g a b) nj jj = inLinksAt g nj jj := by
  by_cases h1 : a < g.nodes.length
  · by_cases h2 : a = nj
    · subst h2
      have hjj : jj ≠ b := fun hh => h ⟨rfl, hh⟩
      unfold inLinksAt dropInPort
      rw [gNode_modify_self g a _ h1]
      dsimp only
      rw [getD_set_ne _ _ _ _ _ (fun hh => hjj hh.symm)]
    · unfold inLinksAt dropInPort
      rw [gNode_modify_ne g a _ nj h2]
  · unfold inLinksAt dropInPort
    rw [gNode_modify_oob g a _ nj (Nat.not_lt.mp h1)]

theorem inLinksAt_dropInPort_le (g : GraphState) (a b nj jj : Nat) :
    inLinksAt (dropInPort g a b) nj jj ≤ inLinksAt g nj jj := by
  by_cases h : nj = a ∧ jj = b
  · obtain ⟨rfl, rfl⟩ := h
    by_cases h1 : nj < g.nodes.length
    · by_cases h2 : jj < (gNode g nj).inPorts.length
      · rw [inLinksAt_dropInPort_self g nj jj h1 h2]
        omega
      · have heq : inLinksAt (dropInPort g nj jj) nj jj = inLinksAt g nj jj := by
          unfold inLinksAt dropInPort
          rw [gNode_modify_self g nj _ h1]
          dsimp only
          rw [set_oob _ _ _ (Nat.not_lt.mp h2)]
        rw [heq]
    · have heq : inLinksAt (dropInPort g nj jj) nj jj = inLinksAt g nj jj := by
        unfold inLinksAt dropInPort
        rw [gNode_modify_oob g nj _ nj (Nat.not_lt.mp h1)]
      rw [heq]
  · rw [inLinksAt_dropInPort_ne g a b nj jj h]

theorem outLinksAt_bumpOutPort_self (g : GraphState) (a b : Nat)
    (h1 : a < g.nodes.length) (h2 : b < (gNode g a).outPorts.length) :
    outLinksAt (bumpOutPort g a b) a b = outLinksAt g a b + 1 := by
  unfold outLinksAt bumpOutPort
  rw [gNode_modify_self g a _ h1]
  dsimp only
  rw [getD_set_self _ _ _ _ h2]

theorem outLinksAt_bumpOutPort_ne (g : GraphState) (a b nj jj : Nat)
    (h : ¬(nj = a ∧ jj = b)) :
    outLinksAt (bumpOutPort g a b) nj jj = outLinksAt g nj jj := by
  by_cases h1 : a < g.nodes.length
  · by_cases h2 : a = nj
    · subst h2
      have hjj : jj ≠ b := fun hh => h ⟨rfl, hh⟩
      unfold outLinksAt bumpOutPort
      rw [gNode_modify_self g a _ h1]
      dsimp only
      rw [getD_set_ne _ _ _ _ _ (fun hh => hjj hh.symm)]
    · unfold outLinksAt bumpOutPort
      rw [gNode_modify_ne g a _ nj h2]
  · unfold outLinksAt bumpOutPort
    rw [gNode_modify_oob g a _ nj (Nat.not_lt.mp h1)]

theorem outLinksAt_dropOutPort_self (g : GraphState) (a b : Nat)
    (h1 : a < g.nodes.length) (h2 : b < (gNode g a).outPorts.length) :
    outLinksAt (dropOutPort g a b) a b = outLinksAt g a b - 1 := by
  unfold outLinksAt dropOutPort
  rw [gNode_modify_self g a _ h1]
  dsimp only
  rw [getD_set_self _ _ _ _ h2]

theorem outLinksAt_dropOutPort_ne (g : GraphState) (a b nj jj : Nat)
    (h : ¬(nj = a ∧ jj = b)) :
    outLinksAt (dropOutPort g a b) nj jj = outLinksAt g nj jj := by
  by_cases h1 : a < g.nodes.length
  · by_cases h2 : a = nj
    · subst h2
      have hjj : jj ≠ b := fun hh => h ⟨rfl, hh⟩
      unfold outLinksAt dropOutPort
      rw [gNode_modify_self g a _ h1]
      dsimp only
      rw [getD_set_ne _ _ _ _ _ (fun hh => hjj hh.symm)]
    · unfold outLinksAt dropOutPort
      rw [gNode_modify_ne g a _ nj h2]
  · unfold outLinksAt dropOutPort
    rw [gNode_modify_oob g a _ nj (Nat.not_lt.mp h1)]

theorem getCtl_updCtl_self (g : GraphState) (a b : Nat) (v : Rat)
    (h1 : a < g.nodes.length) (h2 : b < (gNode g a).ctlPorts.length) :
    getCtl (updCtl g a b v) a b = v := by
  unfold getCtl updCtl
  rw [gNode_modify_self g a _ h1]
  dsimp only
  rw [getD_set_self _ _ _ _ h2]

theorem getCtl_updCtl_ne (g : GraphState) (a b : Nat) (v : Rat) (nj jj : Nat)
    (h : ¬(nj = a ∧ jj = b)) :
    getCtl (updCtl g a b v) nj jj = getCtl g nj jj := by
  by_cases h1 : a < g.nodes.length
  · by_cases h2 : a = nj
    · subst h2
      have hjj : jj ≠ b := fun hh => h ⟨rfl, hh⟩
      unfold getCtl updCtl
      rw [gNode_modify_self g a _ h1]
      dsimp only
      rw [getD_set_ne _ _ _ _ _ (fun hh => hjj hh.symm)]
    · unfold getCtl updCtl
      rw [gNode_modify_ne g a _ nj h2]
  · unfold getCtl updCtl
    rw [gNode_modify_oob g a _ nj (Nat.not_lt.mp h1)]

theorem updCtl_write_self (g : GraphState) (a b : Nat) (v : Rat)
    (h : getCtl g a b = v) : updCtl g a b v = g := by
  have hcp : ({ controlData := v } : CPort) = (gNode g a).ctlPorts.getD b defaultCPort := by
    rw [← h]
    rfl
  unfold updCtl modifyNode
  dsimp only
  rw [hcp, set_getD_self]
  show { g with nodes := g.nodes.set a (g.nodes.getD a defaultGNode) } = g
  rw [set_getD_self]

end FilterChain

namespace FilterChain

/-! ## Builder invariant lemmas -/

theorem getD_eq_get {α : Type} : ∀ (l : List α) (i : Nat) (d : α) (h : i < l.length),
    l.getD i d = l.get ⟨i, h⟩
  | _ :: _, 0, _, _ => rfl
  | _ :: xs, i + 1, d, h => getD_eq_get xs i d (Nat.lt_of_succ_lt_succ h)

theorem countP_eraseIdx_add {α : Type} (p : α → Bool) :
    ∀ (l : List α) (k : Nat) (a : α), l.get? k = some a →
      (l.eraseIdx k).countP p + (if p a then 1 else 0) = l.countP p := by
  intro l
  induction l with
  | nil => intro k a h; exact Option.noConfusion h
  | cons x xs ih =>
    intro k a h
    cases k with
    | zero =>
      have hx : x = a := Option.some.inj h
      subst hx
      simp [List.eraseIdx, List.countP_cons]
    | succ k =>
      have h2 : xs.get? k = some a := h
      have h3 := ih k a h2
      simp only [List.eraseIdx, List.countP_cons]
      omega

theorem structWF_shape {g g' : GraphState} (h : ShapeEq g g') (hW : structWF g) :
    structWF g' := by
  intro n hn
  obtain ⟨i, hi⟩ := List.mem_iff_get.mp hn
  have hlt : i.val < g.nodes.length := by
    rw [← h.1]
    exact i.isLt
  have hgn : gNode g' i.val = n := by
    unfold gNode
    rw [getD_eq_get _ _ _ i.isLt]
    exact hi
  have hmem : gNode g i.val ∈ g.nodes := getD_mem _ _ _ hlt
  have hW2 := hW _ hmem
  obtain ⟨e1, e2, e3, e4, e5⟩ := h.2 i.val
  rw [← hgn, e3, e4, e5, e2]
  exact hW2

theorem addLink_links (g : GraphState) (op ip : Nat × Nat) :
    (addLink g op ip).links = g.links ++
      [{ outNode := op.1, outIdx := op.2, inNode := ip.1, inIdx := ip.2 }] := rfl

theorem addLink_shape (g : GraphState) (op ip : Nat × Nat) : ShapeEq g (addLink g op ip) := by
  have h1 := shapeEq_bumpOutPort g op.1 op.2
  have h2 := shapeEq_bumpInPort (bumpOutPort g op.1 op.2) ip.1 ip.2
  have h3 := shapeEq_bumpDeps (bumpInPort (bumpOutPort g op.1 op.2) ip.1 ip.2) ip.1
  exact shapeEq_trans (shapeEq_trans h1 h2) h3

theorem nDepsAt_addLink (g : GraphState) (op ip : Nat × Nat)
    (hip1 : ip.1 < g.nodes.length) (nj : Nat) :
    nDepsAt (addLink g op ip) nj = nDepsAt g nj + (if nj = ip.1 then 1 else 0) := by
  show nDepsAt (bumpDeps (bumpInPort (bumpOutPort g op.1 op.2) ip.1 ip.2) ip.1) nj = _
  by_cases hnj : nj = ip.1
  · subst hnj
    rw [nDepsAt_bumpDeps_self _ _ (by
      rw [(shapeEq_bumpInPort _ _ _).1, (shapeEq_bumpOutPort _ _ _).1]
      exact hip1)]
    rw [nDepsAt_bumpInPort, nDepsAt_bumpOutPort, if_pos rfl]
  · rw [nDepsAt_bumpDeps_ne _ _ _ hnj, nDepsAt_bumpInPort, nDepsAt_bumpOutPort, if_neg hnj]
    omega

theorem inLinksAt_addLink (g : GraphState) (op ip : Nat × Nat)
    (hip1 : ip.1 < g.nodes.length) (hip2 : ip.2 < (gNode g ip.1).inPorts.length)
    (nj jj : Nat) :
    inLinksAt (addLink g op ip) nj jj =
      inLinksAt g nj jj + (if nj = ip.1 ∧ jj = ip.2 then 1 else 0) := by
  show inLinksAt (bumpDeps (bumpInPort (bumpOutPort g op.1 op.2) ip.1 ip.2) ip.1) nj jj = _
  rw [inLinksAt_bumpDeps]
  by_cases hh : nj = ip.1 ∧ jj = ip.2
  · obtain ⟨h1, h2⟩ := hh
    subst h1
    subst h2
    rw [inLinksAt_bumpInPort_self _ _ _ (by
        rw [(shapeEq_bumpOutPort _ _ _).1]
        exact hip1)
      (by
        rw [((shapeEq_bumpOutPort g op.1 op.2).2 ip.1).2.2.1]
        exact hip2)]
    rw [inLinksAt_bumpOutPort, if_pos ⟨rfl, rfl⟩]
  · rw [inLinksAt_bumpInPort_ne _ _ _ _ _ hh, inLinksAt_bumpOutPort, if_neg hh]
    omega

theorem outLinksAt_addLink (g : GraphState) (op ip : Nat × Nat)
    (hop1 : op.1 < g.nodes.length) (hop2 : op.2 < (gNode g op.1).outPorts.length)
    (nj jj : Nat) :
    outLinksAt (addLink g op ip) nj jj =
      outLinksAt g nj jj + (if nj = op.1 ∧ jj = op.2 then 1 else 0) := by
  show outLinksAt (bumpDeps (bumpInPort (bumpOutPort g op.1 op.2) ip.1 ip.2) ip.1) nj jj = _
  rw [outLinksAt_bumpDeps, outLinksAt_bumpInPort]
  by_cases hh : nj = op.1 ∧ jj = op.2
  · obtain ⟨rfl, rfl⟩ := hh
    rw [outLinksAt_bumpOutPort_self _ _ _ hop1 hop2, if_pos ⟨rfl, rfl⟩]
  · rw [outLinksAt_bumpOutPort_ne _ _ _ _ _ hh, if_neg hh]
    omega

theorem countersOK_addLink (g : GraphState) (op ip : Nat × Nat)
    (hop1 : op.1 < g.nodes.length) (hop2 : op.2 < (gNode g op.1).outPorts.length)
    (hip1 : ip.1 < g.nodes.length) (hip2 : ip.2 < (gNode g ip.1).inPorts.length)
    (hC : countersOK g) : countersOK (addLink g op ip) := by
  obtain ⟨hD, hI, hO⟩ := hC
  refine ⟨?_, ?_, ?_⟩
  · intro nj
    rw [nDepsAt_addLink g op ip hip1 nj, addLink_links, List.countP_append, hD nj]
    congr 1
    by_cases hnj : nj = ip.1
    · simp [List.countP_cons, hnj]
    · have hnj2 : ¬ip.1 = nj := fun h => hnj h.symm
      simp [List.countP_cons, hnj, hnj2]
  · intro nj jj
    rw [inLinksAt_addLink g op ip hip1 hip2 nj jj, addLink_links, List.countP_append, hI nj jj]
    congr 1
    by_cases hh : nj = ip.1 ∧ jj = ip.2
    · obtain ⟨rfl, rfl⟩ := hh
      simp [List.countP_cons]
    · rw [if_neg hh]
      have : ¬(ip.1 = nj ∧ ip.2 = jj) := fun hc => hh ⟨hc.1.symm, hc.2.symm⟩
      rcases Decidable.not_and_iff_or_not.mp this with hc | hc <;>
        simp [List.countP_cons, hc]
  · intro nj jj
    rw [outLinksAt_addLink g op ip hop1 hop2 nj jj, addLink_links, List.countP_append, hO nj jj]
    congr 1
    by_cases hh : nj = op.1 ∧ jj = op.2
    · obtain ⟨rfl, rfl⟩ := hh
      simp [List.countP_cons]
    · rw [if_neg hh]
      have : ¬(op.1 = nj ∧ op.2 = jj) := fun hc => hh ⟨hc.1.symm, hc.2.symm⟩
      rcases Decidable.not_and_iff_or_not.mp this with hc | hc <;>
        simp [List.countP_cons, hc]

theorem linksWF_addLink (g : GraphState) (op ip : Nat × Nat)
    (hop1 : op.1 < g.nodes.length) (hop2 : op.2 < (gNode g op.1).outPorts.length)
    (hip1 : ip.1 < g.nodes.length) (hip2 : ip.2 < (gNode g ip.1).inPorts.length)
    (hL : linksWF g) : linksWF (addLink g op ip) := by
  intro l hl
  have hshape := addLink_shape g op ip
  rw [addLink_links] at hl
  rcases List.mem_append.mp hl with hl | hl
  · obtain ⟨b1, b2, b3, b4⟩ := hL l hl
    refine ⟨?_, ?_, ?_, ?_⟩
    · rw [hshape.1]; exact b1
    · rw [hshape.1]; exact b2
    · rw [((hshape).2 l.outNode).2.2.2.1]; exact b3
    · rw [((hshape).2 l.inNode).2.2.1]; exact b4
  · have hl2 : l = { outNode := op.1, outIdx := op.2, inNode := ip.1, inIdx := ip.2 } := by
      simpa using hl
    subst hl2
    refine ⟨?_, ?_, ?_, ?_⟩
    · rw [hshape.1]; exact hop1
    · rw [hshape.1]; exact hip1
    · rw [((hshape).2 op.1).2.2.2.1]; exact hop2
    · rw [((hshape).2 ip.1).2.2.1]; exact hip2

end FilterChain

namespace FilterChain

/-! ## parse_link and link_free lemmas -/

theorem parse_link_ok_inv (g : GraphState) (o i : String) (g2 : GraphState)
    (h : parse_link g o i = Except.ok g2) :
    ∃ op ip, find_port g 0 o PortSel.audioOut = some op ∧
      find_port g (g.nodes.length - 1) i PortSel.audioIn = some ip ∧
      inLinksAt g ip.1 ip.2 = 0 ∧
      g2 = addLink g op ip ∧ g.nodes.isEmpty = false := by
  unfold parse_link at h
  split at h
  · exact Except.noConfusion h
  · rename_i hne
    split at h
    · exact Except.noConfusion h
    · rename_i op hop
      split at h
      · exact Except.noConfusion h
      · rename_i ip hip
        split at h
        · exact Except.noConfusion h
        · rename_i hnl
          refine ⟨op, ip, hop, hip, ?_, (Except.ok.inj h).symm, ?_⟩
          · exact Nat.eq_zero_of_not_pos hnl
          · exact Bool.eq_false_iff.mpr hne

theorem mem_eraseIdx_sub {α : Type} : ∀ (l : List α) (k : Nat) (a : α),
    a ∈ l.eraseIdx k → a ∈ l
  | [], _, _, h => h
  | _ :: _, 0, _, h => List.mem_cons_of_mem _ h
  | x :: xs, k + 1, a, h => by
    rcases List.mem_cons.mp h with h | h
    · exact h ▸ List.mem_cons_self x xs
    · exact List.mem_cons_of_mem x (mem_eraseIdx_sub xs k a h)

theorem link_free_oob (g : GraphState) (k : Nat) (h : g.links.get? k = none) :
    link_free g k = g := by
  unfold link_free
  rw [h]

theorem link_free_some_eq (g : GraphState) (k : Nat) (l : GLink)
    (h : g.links.get? k = some l) :
    link_free g k =
      { dropOutPort (dropDeps (dropInPort g l.inNode l.inIdx) l.inNode) l.outNode l.outIdx with
        links := g.links.eraseIdx k } := by
  unfold link_free
  rw [h]
  rfl

theorem link_free_shape (g : GraphState) (k : Nat) : ShapeEq g (link_free g k) := by
  cases hk : g.links.get? k with
  | none => rw [link_free_oob g k hk]; exact shapeEq_refl g
  | some l =>
    rw [link_free_some_eq g k l hk]
    have h1 := shapeEq_dropInPort g l.inNode l.inIdx
    have h2 := shapeEq_dropDeps (dropInPort g l.inNode l.inIdx) l.inNode
    have h3 := shapeEq_dropOutPort (dropDeps (dropInPort g l.inNode l.inIdx) l.inNode)
      l.outNode l.outIdx
    have h4 := shapeEq_trans (shapeEq_trans h1 h2) h3
    exact ⟨h4.1, h4.2⟩

theorem countersOK_link_free (g : GraphState) (k : Nat)
    (hL : linksWF g) (hC : countersOK g) : countersOK (link_free g k) := by
  obtain ⟨hD, hI, hO⟩ := hC
  cases hk : g.links.get? k with
  | none => rw [link_free_oob g k hk]; exact ⟨hD, hI, hO⟩
  | some l =>
    obtain ⟨b1, b2, b3, b4⟩ := hL l (List.get?_mem hk)
    rw [link_free_some_eq g k l hk]
    refine ⟨?_, ?_, ?_⟩
    · intro nj
      show nDepsAt (dropOutPort (dropDeps (dropInPort g l.inNode l.inIdx) l.inNode)
          l.outNode l.outIdx) nj =
        List.countP (fun x => x.inNode == nj) (g.links.eraseIdx k)
      rw [nDepsAt_dropOutPort]
      have hcnt := countP_eraseIdx_add (fun x => x.inNode == nj) g.links k l hk
      by_cases hnj : nj = l.inNode
      · subst hnj
        rw [nDepsAt_dropDeps_self _ _ (by
          rw [(shapeEq_dropInPort _ _ _).1]
          exact b2)]
        rw [nDepsAt_dropInPort, hD l.inNode]
        simp at hcnt
        omega
      · rw [nDepsAt_dropDeps_ne _ _ _ hnj, nDepsAt_dropInPort, hD nj]
        have hfalse : (l.inNode == nj) = false := by
          simp only [beq_eq_false_iff_ne, ne_eq]
          exact fun hh => hnj hh.symm
        simp [hfalse] at hcnt
        omega
    · intro nj jj
      show inLinksAt (dropOutPort (dropDeps (dropInPort g l.inNode l.inIdx) l.inNode)
          l.outNode l.outIdx) nj jj =
        List.countP (fun x => x.inNode == nj && x.inIdx == jj) (g.links.eraseIdx k)
      rw [inLinksAt_dropOutPort, inLinksAt_dropDeps]
      have hcnt := countP_eraseIdx_add (fun x => x.inNode == nj && x.inIdx == jj) g.links k l hk
      by_cases hh : nj = l.inNode ∧ jj = l.inIdx
      · obtain ⟨h1, h2⟩ := hh
        subst h1
        subst h2
        rw [inLinksAt_dropInPort_self _ _ _ b2 b4, hI l.inNode l.inIdx]
        simp at hcnt
        omega
      · rw [inLinksAt_dropInPort_ne _ _ _ _ _ hh, hI nj jj]
        have hfalse : (l.inNode == nj && l.inIdx == jj) = false := by
          rcases Decidable.not_and_iff_or_not.mp hh with hc | hc
          · have hb : (l.inNode == nj) = false := by
              simp only [beq_eq_false_iff_ne, ne_eq]
              exact fun hx => hc hx.symm
            simp [hb]
          · have hb : (l.inIdx == jj) = false := by
              simp only [beq_eq_false_iff_ne, ne_eq]
              exact fun hx => hc hx.symm
            simp [hb]
        simp [hfalse] at hcnt
        omega
    · intro nj jj
      show outLinksAt (dropOutPort (dropDeps (dropInPort g l.inNode l.inIdx) l.inNode)
          l.outNode l.outIdx) nj jj =
        List.countP (fun x => x.outNode == nj && x.outIdx == jj) (g.links.eraseIdx k)
      have hcnt := countP_eraseIdx_add (fun x => x.outNode == nj && x.outIdx == jj) g.links k l hk
      by_cases hh : nj = l.outNode ∧ jj = l.outIdx
      · obtain ⟨h1, h2⟩ := hh
        subst h1
        subst h2
        rw [outLinksAt_dropOutPort_self _ _ _ (by
            rw [(shapeEq_dropDeps _ _).1, (shapeEq_dropInPort _ _ _).1]
            exact b1)
          (by
            rw [((shapeEq_dropDeps (dropInPort g l.inNode l.inIdx) l.inNode).2 l.outNode).2.2.2.1,
              ((shapeEq_dropInPort g l.inNode l.inIdx).2 l.outNode).2.2.2.1]
            exact b3)]
        rw [outLinksAt_dropDeps, outLinksAt_dropInPort, hO l.outNode l.outIdx]
        simp at hcnt
        omega
      · rw [outLinksAt_dropOutPort_ne _ _ _ _ _ hh, outLinksAt_dropDeps,
          outLinksAt_dropInPort, hO nj jj]
        have hfalse : (l.outNode == nj && l.outIdx == jj) = false := by
          rcases Decidable.not_and_iff_or_not.mp hh with hc | hc
          · have hb : (l.outNode == nj) = false := by
              simp only [beq_eq_false_iff_ne, ne_eq]
              exact fun hx => hc hx.symm
            simp [hb]
          · have hb : (l.outIdx == jj) = false := by
              simp only [beq_eq_false_iff_ne, ne_eq]
              exact fun hx => hc hx.symm
            simp [hb]
        simp [hfalse] at hcnt
        omega

theorem linksWF_link_free (g : GraphState) (k : Nat) (hL : linksWF g) :
    linksWF (link_free g k) := by
  have hshape := link_free_shape g k
  cases hk : g.links.get? k with
  | none => rw [link_free_oob g k hk]; exact hL
  | some l =>
    intro x hx
    have hx2 : x ∈ g.links := by
      rw [link_free_some_eq g k l hk] at hx
      exact mem_eraseIdx_sub _ _ _ hx
    obtain ⟨b1, b2, b3, b4⟩ := hL x hx2
    refine ⟨?_, ?_, ?_, ?_⟩
    · rw [hshape.1]; exact b1
    · rw [hshape.1]; exact b2
    · rw [(hshape.2 x.outNode).2.2.2.1]; exact b3
    · rw [(hshape.2 x.inNode).2.2.1]; exact b4

theorem builderInv_applyBuildOp (g : GraphState) (op : BuildOp)
    (hInv : BuilderInv g) : BuilderInv (applyBuildOp g op) := by
  obtain ⟨hW, hL, hC⟩ := hInv
  cases op with
  | plink o i =>
    unfold applyBuildOp
    dsimp only
    cases hp : parse_link g o i with
    | error e => exact ⟨hW, hL, hC⟩
    | ok g2 =>
      obtain ⟨opr, ipr, hop, hip, hz, hg2, hne⟩ := parse_link_ok_inv g o i g2 hp
      have hlen : 0 < g.nodes.length := by
        cases hn : g.nodes with
        | nil => rw [hn] at hne; exact Bool.noConfusion hne
        | cons a t => exact Nat.succ_pos _
      have hop1 : opr.1 < g.nodes.length :=
        find_port_node_lt g 0 o PortSel.audioOut opr.1 opr.2 hlen
          (by rw [← hop])
      have hip1 : ipr.1 < g.nodes.length :=
        find_port_node_lt g (g.nodes.length - 1) i PortSel.audioIn ipr.1 ipr.2
          (Nat.sub_lt hlen Nat.one_pos)
          (by rw [← hip])
      have hopm : gNode g opr.1 ∈ g.nodes := getD_mem _ _ _ hop1
      have hipm : gNode g ipr.1 ∈ g.nodes := getD_mem _ _ _ hip1
      have hop2 : opr.2 < (gNode g opr.1).outPorts.length := by
        rw [(hW _ hopm).2.1]
        exact find_port_idx_lt g 0 o PortSel.audioOut opr.1 opr.2 (by rw [← hop])
      have hip2 : ipr.2 < (gNode g ipr.1).inPorts.length := by
        rw [(hW _ hipm).1]
        exact find_port_idx_lt g (g.nodes.length - 1) i PortSel.audioIn ipr.1 ipr.2
          (by rw [← hip])
      subst hg2
      exact ⟨structWF_shape (addLink_shape g opr ipr) hW,
        linksWF_addLink g opr ipr hop1 hop2 hip1 hip2 hL,
        countersOK_addLink g opr ipr hop1 hop2 hip1 hip2 hC⟩
  | lfree k =>
    unfold applyBuildOp
    dsimp only
    exact ⟨structWF_shape (link_free_shape g k) hW,
      linksWF_link_free g k hL,
      countersOK_link_free g k hL hC⟩

theorem builderInv_applyBuildOps (ops : List BuildOp) :
    ∀ g : GraphState, BuilderInv g → BuilderInv (applyBuildOps g ops) := by
  induction ops with
  | nil => intro g h; exact h
  | cons op rest ih =>
    intro g h
    exact ih _ (builderInv_applyBuildOp g op h)

end FilterChain

namespace FilterChain

/-! ## Builder claims (C6, C10) -/

theorem inLinksAt_bumpInPort_node_oob (g : GraphState) (a b : Nat)
    (h : g.nodes.length ≤ a) (nj jj : Nat) :
    inLinksAt (bumpInPort g a b) nj jj = inLinksAt g nj jj := by
  unfold inLinksAt bumpInPort
  rw [gNode_modify_oob g a _ nj h]

theorem inLinksAt_bumpInPort_le (g : GraphState) (a b nj jj : Nat)
    (hz : inLinksAt g a b = 0) (hle : inLinksAt g nj jj ≤ 1) :
    inLinksAt (bumpInPort g a b) nj jj ≤ 1 := by
  by_cases hh : nj = a ∧ jj = b
  · rw [hh.1, hh.2]
    by_cases hr1 : a < g.nodes.length
    · by_cases hr2 : b < (gNode g a).inPorts.length
      · rw [inLinksAt_bumpInPort_self g a b hr1 hr2, hz]
      · rw [inLinksAt_bumpInPort_idx_oob g a b (Nat.not_lt.mp hr2) a b, hz]
        exact Nat.zero_le 1
    · rw [inLinksAt_bumpInPort_node_oob g a b (Nat.not_lt.mp hr1) a b, hz]
      exact Nat.zero_le 1
  · rw [inLinksAt_bumpInPort_ne g a b nj jj hh]
    exact hle

theorem singleLinked_applyBuildOp (g : GraphState) (op : BuildOp)
    (h : inputPortsSingleLinked g) : inputPortsSingleLinked (applyBuildOp g op) := by
  cases op with
  | plink o i =>
    unfold applyBuildOp
    dsimp only
    cases hp : parse_link g o i with
    | error e => exact h
    | ok g2 =>
      obtain ⟨opr, ipr, hop, hip, hz, hg2, hne⟩ := parse_link_ok_inv g o i g2 hp
      subst hg2
      intro nj jj
      show inLinksAt (bumpDeps (bumpInPort (bumpOutPort g opr.1 opr.2) ipr.1 ipr.2) ipr.1)
        nj jj ≤ 1
      rw [inLinksAt_bumpDeps]
      apply inLinksAt_bumpInPort_le
      · rw [inLinksAt_bumpOutPort]
        exact hz
      · rw [inLinksAt_bumpOutPort]
        exact h nj jj
  | lfree k =>
    unfold applyBuildOp
    dsimp only
    intro nj jj
    cases hk : g.links.get? k with
    | none =>
      rw [link_free_oob g k hk]
      exact h nj jj
    | some l =>
      rw [link_free_some_eq g k l hk]
      show inLinksAt (dropOutPort (dropDeps (dropInPort g l.inNode l.inIdx) l.inNode)
        l.outNode l.outIdx) nj jj ≤ 1
      rw [inLinksAt_dropOutPort, inLinksAt_dropDeps]
      exact le_trans (inLinksAt_dropInPort_le g l.inNode l.inIdx nj jj) (h nj jj)

/-- C6 (amended): creating a link whose input port already has an
incoming link fails with the UNSUPPORTED error (-ENOTSUP, "use a
mixer") - not BUSY as the claim says - and on that failure the whole
graph state (link lists, n_links counters, n_deps counters) is
unchanged; moreover, over any builder history starting from a state
whose input ports are at most single-linked, every input port keeps at
most one incoming link. -/
theorem double_input_link_rejected :
    (∀ (g : GraphState) (o i : String) (op ip : Nat × Nat),
      g.nodes.isEmpty = false →
      find_port g 0 o PortSel.audioOut = some op →
      find_port g (g.nodes.length - 1) i PortSel.audioIn = some ip →
      0 < inLinksAt g ip.1 ip.2 →
      parse_link g o i = Except.error FcError.NOTSUP ∧
        applyBuildOp g (BuildOp.plink o i) = g) ∧
    (∀ (g0 : GraphState) (ops : List BuildOp),
      inputPortsSingleLinked g0 → inputPortsSingleLinked (applyBuildOps g0 ops)) := by
  constructor
  · intro g o i op ip hne hop hip hbusy
    have hpl : parse_link g o i = Except.error FcError.NOTSUP := by
      unfold parse_link
      rw [if_neg (by simp [hne])]
      rw [hop]
      dsimp only
      rw [hip]
      dsimp only
      exact if_pos hbusy
    refine ⟨hpl, ?_⟩
    unfold applyBuildOp
    dsimp only
    rw [hpl]
  · intro g0 ops h0
    induction ops generalizing g0 with
    | nil => exact h0
    | cons op rest ih =>
      exact ih _ (singleLinked_applyBuildOp g0 op h0)

/-- C6 counterexample: on a concrete two-node graph with an existing
link Out -> In, a second link into the same input port fails with
ENOTSUP (UNSUPPORTED), not with EBUSY (BUSY) as the claim states. -/
theorem double_input_link_busy_counterexample :
    parse_link (applyBuildOp builderFixture (BuildOp.plink "Out" "In")) "Out" "In" =
      Except.error FcError.NOTSUP ∧
    (Except.error FcError.NOTSUP : Except FcError GraphState) ≠ Except.error FcError.BUSY :=
  ⟨rfl, fun hh => FcError.noConfusion (Except.error.inj hh)⟩

/-- Witness for the amended C6 on the concrete double-link attempt:
the second parse_link fails with ENOTSUP and leaves the state
untouched. -/
theorem double_input_link_rejected_witness :
    parse_link (applyBuildOp builderFixture (BuildOp.plink "Out" "In")) "Out" "In" =
      Except.error FcError.NOTSUP ∧
    applyBuildOp (applyBuildOp builderFixture (BuildOp.plink "Out" "In"))
      (BuildOp.plink "Out" "In") = applyBuildOp builderFixture (BuildOp.plink "Out" "In") :=
  double_input_link_rejected.1 (applyBuildOp builderFixture (BuildOp.plink "Out" "In"))
    "Out" "In" (0, 0) (1, 0) (by decide) (by decide) (by decide) (by decide)

/-- C10: throughout the builder phase - any sequence of successful and
failed parse_link calls and link_free calls, starting from the
post-load_node state (well-formed port arrays, no links, counters as
allocated) - every node's n_deps equals the number of links whose
input endpoint is one of that node's input ports, and every port's
n_links equals the number of links incident on that port. -/
theorem builder_counters_correct (g0 : GraphState) (ops : List BuildOp)
    (hW : structWF g0) (hl0 : g0.links = []) (hC0 : countersOK g0) :
    countersOK (applyBuildOps g0 ops) := by
  have hInvInit : BuilderInv g0 := by
    refine ⟨hW, ?_, hC0⟩
    intro l hl
    rw [hl0] at hl
    simp at hl
  exact (builderInv_applyBuildOps ops g0 hInvInit).2.2

/-- Witness for C10: link, unlink, link again on the concrete two-node
graph. -/
theorem builder_counters_correct_witness :
    countersOK (applyBuildOps builderFixture
      [BuildOp.plink "Out" "In", BuildOp.lfree 0, BuildOp.plink "Out" "In"]) :=
  builder_counters_correct builderFixture
    [BuildOp.plink "Out" "In", BuildOp.lfree 0, BuildOp.plink "Out" "In"]
    (by decide) rfl
    ⟨fun ni => match ni with
      | 0 => rfl
      | 1 => rfl
      | _ + 2 => rfl,
     fun ni ii => match ni, ii with
      | 0, _ => rfl
      | 1, 0 => rfl
      | 1, _ + 1 => rfl
      | _ + 2, _ => rfl,
     fun ni oi => match ni, oi with
      | 0, 0 => rfl
      | 0, _ + 1 => rfl
      | 1, _ => rfl
      | _ + 2, _ => rfl⟩

end FilterChain

namespace FilterChain

/-! ## Control-plane lemmas -/

theorem getD_oob {α : Type} : ∀ (l : List α) (i : Nat) (d : α), l.length ≤ i →
    l.getD i d = d
  | [], _, _, _ => rfl
  | x :: _, 0, _, h => absurd h (by simp)
  | _ :: xs, i + 1, d, h => getD_oob xs i d (Nat.le_of_succ_le_succ h)

theorem find_port_some_node_lt (g : GraphState) (dn : Nat) (nm : String) (sel : PortSel)
    (ni ii : Nat) (h : find_port g dn nm sel = some (ni, ii)) : ni < g.nodes.length := by
  have hidx := find_port_idx_lt g dn nm sel ni ii h
  by_contra hge
  have hdef : gNode g ni = defaultGNode := by
    unfold gNode
    exact getD_oob _ _ _ (Nat.not_lt.mp hge)
  rw [hdef] at hidx
  cases sel <;> simp [selPorts, defaultGNode, defaultDesc] at hidx

theorem writtenVal_shape (g g' : GraphState) (h : ShapeEq g g') (pr : String × PodVal)
    (q : Nat × Nat) : writtenVal g' pr q = writtenVal g pr q := by
  unfold writtenVal
  rw [(h.2 q.1).2.1]

theorem lastWrite_shape (g g' : GraphState) (h : ShapeEq g g') (ps : List (String × PodVal))
    (p1 p2 : Nat) : lastWrite g' ps p1 p2 = lastWrite g ps p1 p2 := by
  unfold lastWrite
  have hstep : (fun (acc : Option Rat) (pr : String × PodVal) =>
      match find_port g' 0 pr.1 PortSel.ctrlIn with
      | none => acc
      | some q => if q = (p1, p2) then some (writtenVal g' pr q) else acc) =
      (fun (acc : Option Rat) (pr : String × PodVal) =>
      match find_port g 0 pr.1 PortSel.ctrlIn with
      | none => acc
      | some q => if q = (p1, p2) then some (writtenVal g pr q) else acc) := by
    funext acc pr
    rw [find_port_shape g g' h]
    cases find_port g 0 pr.1 PortSel.ctrlIn with
    | none => rfl
    | some q =>
      dsimp only
      rw [writtenVal_shape g g' h]
  rw [hstep]

theorem parse_params_fst_acc (ps : List (String × PodVal)) :
    ∀ (g : GraphState) (c : Nat),
      (ps.foldl (fun acc pr => ((applyParam acc.1 pr).1, acc.2 + (applyParam acc.1 pr).2))
        (g, c)).1 =
      (ps.foldl (fun acc pr => ((applyParam acc.1 pr).1, acc.2 + (applyParam acc.1 pr).2))
        (g, 0)).1 := by
  induction ps with
  | nil => intro g c; rfl
  | cons pr rest ih =>
    intro g c
    simp only [List.foldl_cons]
    rw [ih (applyParam g pr).1 (c + (applyParam g pr).2),
      ih (applyParam g pr).1 (0 + (applyParam g pr).2)]

theorem parse_params_cons_state (g : GraphState) (pr : String × PodVal)
    (rest : List (String × PodVal)) :
    (parse_params g (pr :: rest)).1 = (parse_params (applyParam g pr).1 rest).1 := by
  unfold parse_params
  simp only [List.foldl_cons]
  exact parse_params_fst_acc rest (applyParam g pr).1 ((0 : Nat) + (applyParam g pr).2)

theorem shapeEq_applyParam (g : GraphState) (pr : String × PodVal) :
    ShapeEq g (applyParam g pr).1 := by
  unfold applyParam set_control_value
  cases hf : find_port g 0 pr.1 PortSel.ctrlIn with
  | none => exact shapeEq_refl g
  | some p =>
    dsimp only
    exact shapeEq_updCtl g p.1 p.2 _

theorem shapeEq_parse_params (ps : List (String × PodVal)) :
    ∀ g : GraphState, ShapeEq g (parse_params g ps).1 := by
  induction ps with
  | nil => intro g; exact shapeEq_refl g
  | cons pr rest ih =>
    intro g
    rw [parse_params_cons_state]
    exact shapeEq_trans (shapeEq_applyParam g pr) (ih _)

theorem getCtl_applyParam (g : GraphState) (pr : String × PodVal) (hW : structWF g)
    (p1 p2 : Nat) :
    getCtl (applyParam g pr).1 p1 p2 =
      match find_port g 0 pr.1 PortSel.ctrlIn with
      | none => getCtl g p1 p2
      | some q => if q = (p1, p2) then writtenVal g pr q else getCtl g p1 p2 := by
  unfold applyParam set_control_value
  cases hf : find_port g 0 pr.1 PortSel.ctrlIn with
  | none => rfl
  | some q =>
    dsimp only
    have hlt1 : q.1 < g.nodes.length :=
      find_port_some_node_lt g 0 pr.1 PortSel.ctrlIn q.1 q.2 (by rw [hf])
    have hlt2 : q.2 < (gNode g q.1).ctlPorts.length := by
      have hmm := hW (gNode g q.1) (getD_mem g.nodes q.1 defaultGNode hlt1)
      rw [hmm.2.2]
      exact find_port_idx_lt g 0 pr.1 PortSel.ctrlIn q.1 q.2 (by rw [hf])
    by_cases hq : q = (p1, p2)
    · rw [if_pos hq]
      have hq1 : q.1 = p1 := by rw [hq]
      have hq2 : q.2 = p2 := by rw [hq]
      rw [← hq1, ← hq2]
      exact getCtl_updCtl_self g q.1 q.2 _ hlt1 hlt2
    · rw [if_neg hq]
      apply getCtl_updCtl_ne
      intro hc
      exact hq (Prod.ext hc.1.symm hc.2.symm)

theorem foldl_last_override {α β : Type} (step : Option β → α → Option β)
    (h : ∀ acc x, step acc x = match step none x with
      | some v => some v
      | none => acc) :
    ∀ (l : List α) (acc : Option β),
      l.foldl step acc = match l.foldl step none with
        | some v => some v
        | none => acc := by
  intro l
  induction l with
  | nil => intro acc; rfl
  | cons x xs ih =>
    intro acc
    simp only [List.foldl_cons]
    rw [ih (step acc x), ih (step none x)]
    cases hv : xs.foldl step none with
    | some v => rfl
    | none =>
      dsimp only
      exact h acc x

theorem lastWrite_step_override (g : GraphState) (p1 p2 : Nat) :
    ∀ (acc : Option Rat) (pr : String × PodVal),
      (match find_port g 0 pr.1 PortSel.ctrlIn with
        | none => acc
        | some q => if q = (p1, p2) then some (writtenVal g pr q) else acc) =
      match (match find_port g 0 pr.1 PortSel.ctrlIn with
        | none => (none : Option Rat)
        | some q => if q = (p1, p2) then some (writtenVal g pr q) else none) with
      | some v => some v
      | none => acc := by
  intro acc pr
  cases find_port g 0 pr.1 PortSel.ctrlIn with
  | none => rfl
  | some q =>
    dsimp only
    by_cases hq : q = (p1, p2)
    · rw [if_pos hq, if_pos hq]
    · rw [if_neg hq, if_neg hq]

theorem lastWrite_cons (g : GraphState) (pr : String × PodVal)
    (rest : List (String × PodVal)) (p1 p2 : Nat) :
    lastWrite g (pr :: rest) p1 p2 =
      match lastWrite g rest p1 p2 with
      | some v => some v
      | none =>
        match find_port g 0 pr.1 PortSel.ctrlIn with
        | none => none
        | some q => if q = (p1, p2) then some (writtenVal g pr q) else none := by
  unfold lastWrite
  simp only [List.foldl_cons]
  rw [foldl_last_override _ (by
    intro acc x
    try dsimp only
    cases find_port g 0 x.1 PortSel.ctrlIn with
    | none => rfl
    | some q =>
      try dsimp only
      by_cases hq : q = (p1, p2)
      · rw [if_pos hq, if_pos hq]
      · rw [if_neg hq, if_neg hq]) rest _]
  try dsimp only
  cases rest.foldl (fun (acc : Option Rat) (pr : String × PodVal) =>
      match find_port g 0 pr.1 PortSel.ctrlIn with
      | none => acc
      | some q => if q = (p1, p2) then some (writtenVal g pr q) else acc) none with
  | some v => rfl
  | none =>
    cases find_port g 0 pr.1 PortSel.ctrlIn with
    | none => rfl
    | some q => rfl

theorem getCtl_parse_params (ps : List (String × PodVal)) :
    ∀ (g : GraphState), structWF g → ∀ (p1 p2 : Nat),
      getCtl (parse_params g ps).1 p1 p2 =
        match lastWrite g ps p1 p2 with
        | some v => v
        | none => getCtl g p1 p2 := by
  induction ps with
  | nil => intro g _ p1 p2; rfl
  | cons pr rest ih =>
    intro g hW p1 p2
    rw [parse_params_cons_state]
    have hshape := shapeEq_applyParam g pr
    rw [ih (applyParam g pr).1 (structWF_shape hshape hW) p1 p2]
    rw [lastWrite_shape g (applyParam g pr).1 hshape rest p1 p2]
    rw [lastWrite_cons g pr rest p1 p2]
    rw [getCtl_applyParam g pr hW p1 p2]
    cases lastWrite g rest p1 p2 with
    | some v => rfl
    | none =>
      dsimp only
      cases find_port g 0 pr.1 PortSel.ctrlIn with
      | none => rfl
      | some q =>
        dsimp only
        by_cases hq : q = (p1, p2)
        · rw [if_pos hq, if_pos hq]
        · rw [if_neg hq, if_neg hq]

end FilterChain

namespace FilterChain

/-! ## Snapshot and no-change lemmas -/

theorem flatMap_congr_mem {α β : Type} (f f2 : α → List β) :
    ∀ l : List α, (∀ a ∈ l, f a = f2 a) → l.flatMap f = l.flatMap f2 := by
  intro l
  induction l with
  | nil => intro _; rfl
  | cons a t ih =>
    intro h
    rw [List.flatMap_cons, List.flatMap_cons, h a (List.mem_cons_self a t),
      ih (fun x hx => h x (List.mem_cons_of_mem a hx))]

theorem snapshot_congr (g g' : GraphState) (h : ShapeEq g g')
    (hv : ∀ p1 p2, getCtl g' p1 p2 = getCtl g p1 p2) : snapshot g' = snapshot g := by
  unfold snapshot
  rw [h.1]
  apply flatMap_congr_mem
  intro nj _
  rw [(h.2 nj).2.2.2.2]
  apply List.map_congr_left
  intro i _
  have hname : portParamName (gNode g' nj) ((gNode g' nj).desc.control.getD i 0) =
      portParamName (gNode g nj) ((gNode g nj).desc.control.getD i 0) := by
    unfold portParamName
    rw [(h.2 nj).1, (h.2 nj).2.1]
  rw [hname, hv nj i]

theorem parse_params_no_change (g1 : GraphState) :
    ∀ (qs : List (String × PodVal)),
      (∀ pr ∈ qs, ∀ q, find_port g1 0 pr.1 PortSel.ctrlIn = some q →
        getCtl g1 q.1 q.2 = writtenVal g1 pr q) →
      parse_params g1 qs = (g1, 0) := by
  intro qs
  induction qs with
  | nil => intro _; rfl
  | cons pr rest ih =>
    intro hall
    have hstep : applyParam g1 pr = (g1, 0) := by
      unfold applyParam set_control_value
      cases hf : find_port g1 0 pr.1 PortSel.ctrlIn with
      | none => rfl
      | some q =>
        dsimp only
        have hv := hall pr (List.mem_cons_self _ _) q hf
        exact Prod.ext (updCtl_write_self g1 q.1 q.2 _ hv) (if_pos hv)
    have hrest := ih (fun x hx => hall x (List.mem_cons_of_mem pr hx))
    unfold parse_params at hrest ⊢
    simp only [List.foldl_cons, hstep]
    exact hrest

/-- C9 (implicit): in a parameter update, a (name, value) pair whose
value is none of float, double, int, bool makes parse_params call
set_control_value with a null value pointer, so the named control port
is reset to the descriptor's default value for that port. -/
theorem other_value_resets_default (g : GraphState) (hW : structWF g)
    (pre : List (String × PodVal)) (name : String) (q : Nat × Nat)
    (hfp : find_port g 0 name PortSel.ctrlIn = some q) :
    getCtl (parse_params g (pre ++ [(name, PodVal.otherVal)])).1 q.1 q.2 =
      (gNode g q.1).desc.defaultControl.getD q.2 0 := by
  rw [getCtl_parse_params (pre ++ [(name, PodVal.otherVal)]) g hW q.1 q.2]
  have hlw : lastWrite g (pre ++ [(name, PodVal.otherVal)]) q.1 q.2 =
      some (writtenVal g (name, PodVal.otherVal) q) := by
    unfold lastWrite
    rw [List.foldl_append]
    simp only [List.foldl_cons, List.foldl_nil]
    rw [hfp]
    dsimp only
    rw [if_pos rfl]
  rw [hlw]
  rfl

/-- Witness for C9: a "Gain" control currently at 7 with descriptor
default 2; an update pair ("Gain", non-numeric pod) resets it to 2. -/
theorem other_value_resets_default_witness :
    getCtl (parse_params ctlFixture ([] ++ [("Gain", PodVal.otherVal)])).1 0 0 =
      (gNode ctlFixture 0).desc.defaultControl.getD 0 0 :=
  other_value_resets_default ctlFixture (by decide) [] "Gain" (0, 0) (by decide)

/-- C8 (amended): applying the same (name, value) pair list twice
leaves every control port's control_data equal to its value after the
first application and produces the same parameter snapshot; the second
application reports zero changes provided no control is assigned two
distinct values by the set (e.g. when all resolved names are
distinct); with conflicting duplicate names the second change count
may be nonzero, though the state is still unchanged. -/
theorem parse_params_idempotent (g : GraphState) (ps : List (String × PodVal))
    (hW : structWF g) :
    (∀ p1 p2, getCtl (parse_params (parse_params g ps).1 ps).1 p1 p2 =
      getCtl (parse_params g ps).1 p1 p2) ∧
    snapshot (parse_params (parse_params g ps).1 ps).1 = snapshot (parse_params g ps).1 ∧
    ((∀ pr ∈ ps, ∀ q, find_port g 0 pr.1 PortSel.ctrlIn = some q →
        lastWrite g ps q.1 q.2 = some (writtenVal g pr q)) →
      (parse_params (parse_params g ps).1 ps).2 = 0) := by
  have hsh : ShapeEq g (parse_params g ps).1 := shapeEq_parse_params ps g
  have hW1 : structWF (parse_params g ps).1 := structWF_shape hsh hW
  have hpt : ∀ p1 p2, getCtl (parse_params (parse_params g ps).1 ps).1 p1 p2 =
      getCtl (parse_params g ps).1 p1 p2 := by
    intro p1 p2
    have hg1 : getCtl (parse_params g ps).1 p1 p2 =
        match lastWrite g ps p1 p2 with
        | some v => v
        | none => getCtl g p1 p2 := getCtl_parse_params ps g hW p1 p2
    rw [getCtl_parse_params ps (parse_params g ps).1 hW1 p1 p2,
      lastWrite_shape g (parse_params g ps).1 hsh ps p1 p2, hg1]
    cases lastWrite g ps p1 p2 with
    | some v => rfl
    | none => rfl
  refine ⟨hpt, ?_, ?_⟩
  · exact snapshot_congr (parse_params g ps).1 (parse_params (parse_params g ps).1 ps).1
      (shapeEq_parse_params ps (parse_params g ps).1) hpt
  · intro hnc
    have hfix : parse_params (parse_params g ps).1 ps = ((parse_params g ps).1, 0) := by
      apply parse_params_no_change
      intro pr hpr q hq
      rw [find_port_shape g (parse_params g ps).1 hsh 0 pr.1 PortSel.ctrlIn] at hq
      have hlw := hnc pr hpr q hq
      rw [getCtl_parse_params ps g hW q.1 q.2, hlw,
        writtenVal_shape g (parse_params g ps).1 hsh pr q]
    rw [hfix]

/-- C8 counterexample: the pair set assigning "Gain" first 1 then 2,
applied twice: the state after the second application equals the state
after the first, but the second application reports 2 changes, not
zero as the claim states. -/
theorem parse_params_second_changes_counterexample :
    (parse_params (parse_params ctlFixture dupParams).1 dupParams).2 = 2 ∧ (2 : Nat) ≠ 0 :=
  ⟨rfl, by decide⟩

/-- Witness for the amended C8: a single-pair update applied twice
leaves the control value unchanged, preserves the snapshot, and
reports zero changes the second time. -/
theorem parse_params_idempotent_witness :
    getCtl (parse_params (parse_params ctlFixture [("Gain", PodVal.floatVal 5)]).1
        [("Gain", PodVal.floatVal 5)]).1 0 0 =
      getCtl (parse_params ctlFixture [("Gain", PodVal.floatVal 5)]).1 0 0 ∧
    snapshot (parse_params (parse_params ctlFixture [("Gain", PodVal.floatVal 5)]).1
        [("Gain", PodVal.floatVal 5)]).1 =
      snapshot (parse_params ctlFixture [("Gain", PodVal.floatVal 5)]).1 ∧
    (parse_params (parse_params ctlFixture [("Gain", PodVal.floatVal 5)]).1
        [("Gain", PodVal.floatVal 5)]).2 = 0 :=
  ⟨(parse_params_idempotent ctlFixture [("Gain", PodVal.floatVal 5)] (by decide)).1 0 0,
   (parse_params_idempotent ctlFixture [("Gain", PodVal.floatVal 5)] (by decide)).2.1,
   (parse_params_idempotent ctlFixture [("Gain", PodVal.floatVal 5)] (by decide)).2.2 (by
      intro pr hpr q hq
      cases List.mem_singleton.mp hpr
      have hfp : find_port ctlFixture 0 "Gain" PortSel.ctrlIn = some (0, 0) := by decide
      rw [hfp] at hq
      cases hq
      decide)⟩

end FilterChain
